import Mathlib

/-!
# malling_wh : batch client for a remote directory / messaging service

A shallow embedding of `cmd/main.go`.

* The remote calls (`u.Client.Do`, `io.ReadAll`, `json.Unmarshal`) are external:
  their outcomes are inputs of the embedded functions.
* The two batch operations (`GetClientInfoBatch`, `MassMalling`) are concurrent.
  They are embedded as transition systems: a state holds the channels, the
  program counter of every goroutine and the `sync.WaitGroup` counter, and
  `step` lets one goroutine perform its next channel operation or remote call.
  An execution is a schedule (a list of actions); a property of "every
  interleaving" is a property of every schedule.
-/

set_option linter.unusedTactic false
set_option linter.unreachableTactic false
set_option linter.unusedVariables false

namespace MallingWh

/-! ## Data model -/

/-- Go `error` values built in `main.go`, kept as structured data: the
constructor records which `fmt.Errorf` produced the value and its arguments. -/
inductive Error where
  /-- The transport call `u.Client.Do` failed. -/
  | transport (cause : String)
  /-- Reading the body with `io.ReadAll` failed. -/
  | read (cause : String)
  /-- Decoding with `json.Unmarshal` failed. -/
  | decode (cause : String)
  /-- The value of `fmt.Errorf("ошибка API: статус %d, ответ: %s", resp.StatusCode, string(body))`. -/
  | api (status : Int) (body : String)
deriving DecidableEq

/-- Rows of the listing call (`type Client struct`). -/
structure Client where
  Id : Int
  Caption : String
  Description : String
  UserName : String
  IsGroup : Bool
  Status : Int
  BotId : Int
  Block : Bool
  MessageCount : String
  Max : Int
  Coin : Int
  CountRef : Int
  IsTelegram : Bool
  IsVK : Bool
  IsFb : Bool
  VkId : String
deriving DecidableEq

/-- Payload of the listing call (`type ClientsResponse struct`). -/
structure ClientsResponse where
  Count : Int
  SingleType : Bool
  Rows : List Client
deriving DecidableEq

/-- Payload of the detail call (`type ClientInfoResponse struct`). -/
structure ClientInfoResponse where
  ID : Int
  TelegramID : String
  UserName : String
deriving DecidableEq

/-- What `u.Client.Do` hands back when the transport succeeded: the status
code and the outcome of `io.ReadAll(resp.Body)`. -/
structure Response where
  StatusCode : Int
  Body : Except String String

/-! ## Remote service client -/

/-- `UserManager.Malling`, as a function of the outcome of `u.Client.Do`.
`json.Marshal` of three strings and `http.NewRequest` with a constant method
and URL cannot fail, so those two branches are not inputs. The result is the
returned `error` (`none` is `nil`). -/
def Malling (doResult : Except String Response) : Option Error :=
  match doResult with
  | .error e => some (.transport e)
  | .ok resp =>
    match resp.Body with
    | .error e => some (.read e)
    | .ok body =>
      if resp.StatusCode != 200 then some (.api resp.StatusCode body) else none

/-- The loop of `UserManager.GetClients` over `clientsResponse.Rows`
(lines 195-200): `resultClients` starts empty and every row that passes the
test is appended. -/
def GetClients.loop (rows : List Client) : List Client :=
  rows.foldl
    (fun resultClients v =>
      if v.Status != -1 && v.IsTelegram then resultClients ++ [v] else resultClients)
    []

/-- `UserManager.GetClients`, as a function of the outcome of `u.Client.Do`
and, inside it, of `json.Unmarshal` on the body. -/
def GetClients (doResult : Except String (Except String ClientsResponse)) :
    Except Error (List Client) :=
  match doResult with
  | .error e => .error (.transport e)
  | .ok (.error e) => .error (.decode e)
  | .ok (.ok clientsResponse) => .ok (GetClients.loop clientsResponse.Rows)

/-! ## Run driver -/

/-- The calls `main` makes, in the order of the source. -/
inductive MainStep where
  | loadConfig
  | GetAccessToken
  | TestMalling
  | GetClients
  | SaveClientsToJSON
  | GetClientInfoBatch
  | SaveClientInfoToJSON
  | printSample
  | nilDereference
deriving DecidableEq

/-- Outcomes of the calls `main` makes. `GetAccessToken` yields either its
error or the token it stored in `u.AccessToken`. `GetClientInfoBatch` always
returns a `nil` error, so only its result list is an input. -/
structure MainEnv where
  loadConfig : Option Error
  GetAccessToken : Except Error String
  TestMalling : Option Error
  GetClients : Except Error (List Client)
  SaveClientsToJSON : List Client → Option Error
  GetClientInfoBatch : List Client → List ClientInfoResponse
  SaveClientInfoToJSON : List ClientInfoResponse → Option Error

/-- The function `main`: the list of calls it performs, in order. A failed
`loadConfig` is only logged and the nil `config` is dereferenced next. A failed
`GetClients` is only logged and `clients` stays nil (the empty list). -/
def main (env : MainEnv) : List MainStep :=
  match env.loadConfig with
  | some _ => [.loadConfig, .nilDereference]
  | none =>
    match env.GetAccessToken with
    | .error _ => [.loadConfig, .GetAccessToken]
    | .ok accessToken =>
      if accessToken == "" then [.loadConfig, .GetAccessToken]
      else
        match env.TestMalling with
        | some _ => [.loadConfig, .GetAccessToken, .TestMalling]
        | none =>
          let clients : List Client :=
            match env.GetClients with
            | .error _ => []
            | .ok cs => cs
          match env.SaveClientsToJSON clients with
          | some _ =>
            [.loadConfig, .GetAccessToken, .TestMalling, .GetClients, .SaveClientsToJSON]
          | none =>
            let clientInfos := env.GetClientInfoBatch clients
            match env.SaveClientInfoToJSON clientInfos with
            | some _ =>
              [.loadConfig, .GetAccessToken, .TestMalling, .GetClients, .SaveClientsToJSON,
                .GetClientInfoBatch, .SaveClientInfoToJSON]
            | none =>
              [.loadConfig, .GetAccessToken, .TestMalling, .GetClients, .SaveClientsToJSON,
                .GetClientInfoBatch, .SaveClientInfoToJSON, .printSample]

/-! ## Batch orchestrator: shared vocabulary -/

/-- Program counter of a worker goroutine: `recv` is the head of
`for x := range ch`, `call x` is the point just before the remote call on the
claimed item, `sendErr`/`sendRes` are the channel sends, `sleep` is
`time.Sleep(100 * time.Millisecond)`, `done` is after the deferred `wg.Done()`. -/
inductive PC (α ρ : Type) where
  | recv
  | call (x : α)
  | sendErr (e : Error)
  | sendRes (r : ρ)
  | sleep
  | done
deriving DecidableEq

/-- What a worker has done so far, in order. -/
inductive Event (α ρ : Type) where
  | claim (x : α)
  | callOk (x : α) (r : ρ)
  | callErr (x : α) (e : Error)
  | sentRes (r : ρ)
  | sentErr (e : Error)
  | pause
deriving DecidableEq

/-- A worker goroutine: where it stands and the events it has performed. -/
structure Worker (α ρ : Type) where
  pc : PC α ρ
  trace : List (Event α ρ)
deriving DecidableEq

/-- Which goroutine moves next: the goroutine that fills the work channel,
worker number `w`, the goroutine that waits on the `WaitGroup` and closes the
sinks, or the caller that drains a sink and returns. -/
inductive Action where
  | producer
  | worker (w : Nat)
  | closer
  | caller
deriving DecidableEq

/-- The items a worker has received from the work channel. -/
def Event.claimed {α ρ : Type} : Event α ρ → Option α
  | .claim x => some x
  | _ => none

/-- The items a worker has passed to the per-item operation. -/
def Event.called {α ρ : Type} : Event α ρ → Option α
  | .callOk x _ => some x
  | .callErr x _ => some x
  | _ => none

/-- The values a worker has sent on the result channel. -/
def Event.resSent {α ρ : Type} : Event α ρ → Option ρ
  | .sentRes r => some r
  | _ => none

/-- The errors a worker has sent on the error channel. -/
def Event.errSent {α ρ : Type} : Event α ρ → Option Error
  | .sentErr e => some e
  | _ => none

/-- Number of items a worker holds between claiming and sending the outcome. -/
def PC.inflight {α ρ : Type} : PC α ρ → Nat
  | .call _ => 1
  | .sendErr _ => 1
  | .sendRes _ => 1
  | _ => 0

/-- Pacing automaton, read over a worker trace from left to right. The state
`some true` means an operation call has happened and no pause since;
`none` means a claim followed a call with no pause between them. Here every
call counts, successful or not. -/
def pacingStep {α ρ : Type} : Option Bool → Event α ρ → Option Bool
  | none, _ => none
  | some _, .callOk _ _ => some true
  | some _, .callErr _ _ => some true
  | some _, .pause => some false
  | some p, .claim _ => if p then none else some false
  | some p, _ => some p

/-- The trace respects pacing: every operation call is followed by a pause
before the next claim. -/
def paced {α ρ : Type} (t : List (Event α ρ)) : Bool :=
  (t.foldl pacingStep (some false)).isSome

/-- Pacing automaton that only counts successful calls. -/
def pacingOkStep {α ρ : Type} : Option Bool → Event α ρ → Option Bool
  | none, _ => none
  | some _, .callOk _ _ => some true
  | some _, .pause => some false
  | some p, .claim _ => if p then none else some false
  | some p, _ => some p

/-- Every successful operation call is followed by a pause before the next
claim. -/
def pacedOk {α ρ : Type} (t : List (Event α ρ)) : Bool :=
  (t.foldl pacingOkStep (some false)).isSome

/-! ## GetClientInfoBatch -/

namespace GetClientInfoBatch

/-- Program counter of the goroutine `wg.Wait(); close(resultChan); close(errorChan)`. -/
inductive CloserPC where
  | wait
  | closeResult
  | closeError
  | finished
deriving DecidableEq

/-- State of one run of `GetClientInfoBatch`. Channels are their buffers (head
is the oldest element) with a closed flag; all three have capacity
`len(clients)`. `next` is the index of the loop `for _, client := range clients`
of the filling goroutine. `calls` counts the remote calls issued so far. -/
structure State where
  next : Nat
  clientChan : List Client
  clientClosed : Bool
  resultChan : List ClientInfoResponse
  resultClosed : Bool
  errorChan : List Error
  errorClosed : Bool
  workers : List (Worker Client ClientInfoResponse)
  wg : Nat
  closer : CloserPC
  results : List ClientInfoResponse
  returned : Bool
  panicked : Bool
  calls : Nat
deriving DecidableEq

/-- State after the spawning code of lines 234-272 has run: `workers` worker
goroutines exist (none for a count below one), each at the head of its loop,
the `WaitGroup` counter equals their number, and the filling and closing
goroutines have not moved. No spawned goroutine can observe whether the others
have been created yet, since spawning touches no channel. -/
def init (workers : Int) : State :=
  { next := 0, clientChan := [], clientClosed := false,
    resultChan := [], resultClosed := false,
    errorChan := [], errorClosed := false,
    workers := List.replicate workers.toNat ⟨.recv, []⟩,
    wg := workers.toNat, closer := .wait,
    results := [], returned := false, panicked := false, calls := 0 }

/-- The goroutine of lines 260-265: send every client, then close. A send
blocks while the buffer is full. -/
def producerStep (clients : List Client) (s : State) : Option State :=
  if s.clientClosed then none
  else if h : s.next < clients.length then
    if s.clientChan.length < clients.length then
      some { s with clientChan := s.clientChan ++ [clients[s.next]], next := s.next + 1 }
    else none
  else some { s with clientClosed := true }

/-- One move of worker `w` (lines 241-256). `op k id` is the outcome of the
`k`-th remote call `u.GetClientInfo(id)` of the run. Receiving blocks on an
empty open channel and leaves the loop on an empty closed one; sending blocks
on a full buffer and panics on a closed channel. After a failed call the worker
sends the error and takes `continue`; after a successful one it sends the
result and sleeps. -/
def workerStep (op : Nat → Int → Except Error ClientInfoResponse) (clients : List Client)
    (w : Nat) (s : State) : Option State :=
  match s.workers[w]? with
  | none => none
  | some wk =>
    match wk.pc with
    | .recv =>
      match s.clientChan with
      | c :: rest =>
        some { s with clientChan := rest,
                      workers := s.workers.set w ⟨.call c, wk.trace ++ [.claim c]⟩ }
      | [] =>
        if s.clientClosed then
          if s.wg = 0 then some { s with panicked := true }
          else some { s with workers := s.workers.set w ⟨.done, wk.trace⟩, wg := s.wg - 1 }
        else none
    | .call c =>
      match op s.calls c.Id with
      | .error e =>
        some { s with calls := s.calls + 1,
                      workers := s.workers.set w ⟨.sendErr e, wk.trace ++ [.callErr c e]⟩ }
      | .ok info =>
        some { s with calls := s.calls + 1,
                      workers := s.workers.set w ⟨.sendRes info, wk.trace ++ [.callOk c info]⟩ }
    | .sendErr e =>
      if s.errorClosed then some { s with panicked := true }
      else if s.errorChan.length < clients.length then
        some { s with errorChan := s.errorChan ++ [e],
                      workers := s.workers.set w ⟨.recv, wk.trace ++ [.sentErr e]⟩ }
      else none
    | .sendRes r =>
      if s.resultClosed then some { s with panicked := true }
      else if s.resultChan.length < clients.length then
        some { s with resultChan := s.resultChan ++ [r],
                      workers := s.workers.set w ⟨.sleep, wk.trace ++ [.sentRes r]⟩ }
      else none
    | .sleep =>
      some { s with workers := s.workers.set w ⟨.recv, wk.trace ++ [.pause]⟩ }
    | .done => none

/-- The goroutine of lines 268-272. `wg.Wait()` blocks until the counter is zero. -/
def closerStep (s : State) : Option State :=
  match s.closer with
  | .wait => if s.wg = 0 then some { s with closer := .closeResult } else none
  | .closeResult =>
    if s.resultClosed then some { s with panicked := true }
    else some { s with resultClosed := true, closer := .closeError }
  | .closeError =>
    if s.errorClosed then some { s with panicked := true }
    else some { s with errorClosed := true, closer := .finished }
  | .finished => none

/-- The caller, lines 274-279: append every received result, return when
`resultChan` is closed and drained. -/
def callerStep (s : State) : Option State :=
  if s.returned then none
  else
    match s.resultChan with
    | r :: rest => some { s with resultChan := rest, results := s.results ++ [r] }
    | [] => if s.resultClosed then some { s with returned := true } else none

/-- One move of the goroutine named by the action; `none` when that goroutine
is blocked or finished, or when the process has panicked. -/
def step (op : Nat → Int → Except Error ClientInfoResponse) (clients : List Client)
    (a : Action) (s : State) : Option State :=
  if s.panicked then none
  else
    match a with
    | .producer => producerStep clients s
    | .worker w => workerStep op clients w s
    | .closer => closerStep s
    | .caller => callerStep s

/-- Run a schedule; `none` when some action of it was not enabled. -/
def run (op : Nat → Int → Except Error ClientInfoResponse) (clients : List Client) :
    List Action → State → Option State
  | [], s => some s
  | a :: as, s => (step op clients a s).bind (run op clients as)

/-- The states some schedule leads to from the initial state. -/
def Reachable (op : Nat → Int → Except Error ClientInfoResponse) (clients : List Client)
    (workers : Int) (s : State) : Prop :=
  ∃ sched, run op clients sched (init workers) = some s

/-- The pair `GetClientInfoBatch` returns (line 279, `return results, nil`),
once the caller has returned. -/
def returnValue (s : State) : Option (List ClientInfoResponse × Option Error) :=
  if s.returned then some (s.results, none) else none

/-- Sequential reference for a deterministic operation: run it on each client
in order and keep the successes. -/
def reference (f : Int → Except Error ClientInfoResponse) (clients : List Client) :
    List ClientInfoResponse :=
  clients.filterMap (fun c => (f c.Id).toOption)

/-- Number of clients on which a deterministic operation fails. -/
def failures (f : Int → Except Error ClientInfoResponse) (clients : List Client) : Nat :=
  (clients.filter (fun c => (f c.Id).toOption.isNone)).length

end GetClientInfoBatch

/-! ## MassMalling -/

namespace MassMalling

/-- Program counter of the goroutine `wg.Wait(); close(errorChan)`. -/
inductive CloserPC where
  | wait
  | closeError
  | finished
deriving DecidableEq

/-- State of one run of `MassMalling`. Both channels have capacity
`len(users)`. `i` is the loop variable of the filling goroutine
(`for i := start_index; i < len(users); i++`). `logged` holds the errors the
caller has received and logged. Workers never reach `sendRes` or `sleep`. -/
structure State where
  i : Int
  userChan : List ClientInfoResponse
  userClosed : Bool
  errorChan : List Error
  errorClosed : Bool
  workers : List (Worker ClientInfoResponse Unit)
  wg : Nat
  closer : CloserPC
  logged : List Error
  returned : Bool
  panicked : Bool
  calls : Nat
deriving DecidableEq

/-- State after the spawning code of lines 318-346 has run. -/
def init (workers : Int) (start_index : Int) : State :=
  { i := start_index, userChan := [], userClosed := false,
    errorChan := [], errorClosed := false,
    workers := List.replicate workers.toNat ⟨.recv, []⟩,
    wg := workers.toNat, closer := .wait,
    logged := [], returned := false, panicked := false, calls := 0 }

/-- The goroutine of lines 336-341. Indexing `users[i]` with a negative `i`
is a run-time panic. -/
def producerStep (users : List ClientInfoResponse) (s : State) : Option State :=
  if s.userClosed then none
  else if s.i < users.length then
    if s.i < 0 then some { s with panicked := true }
    else
      match users[s.i.toNat]? with
      | none => some { s with panicked := true }
      | some u =>
        if s.userChan.length < users.length then
          some { s with userChan := s.userChan ++ [u], i := s.i + 1 }
        else none
  else some { s with userClosed := true }

/-- One move of worker `w` (lines 323-333). `op k telegramID message` is the
outcome of the `k`-th call `u.Malling(telegramID, message)` of the run
(`none` is a `nil` error). After a failed call the worker sends the error;
in both cases it goes back to the head of its loop without sleeping. -/
def workerStep (op : Nat → String → String → Option Error)
    (users : List ClientInfoResponse) (message : String)
    (w : Nat) (s : State) : Option State :=
  match s.workers[w]? with
  | none => none
  | some wk =>
    match wk.pc with
    | .recv =>
      match s.userChan with
      | u :: rest =>
        some { s with userChan := rest,
                      workers := s.workers.set w ⟨.call u, wk.trace ++ [.claim u]⟩ }
      | [] =>
        if s.userClosed then
          if s.wg = 0 then some { s with panicked := true }
          else some { s with workers := s.workers.set w ⟨.done, wk.trace⟩, wg := s.wg - 1 }
        else none
    | .call u =>
      match op s.calls u.TelegramID message with
      | some e =>
        some { s with calls := s.calls + 1,
                      workers := s.workers.set w ⟨.sendErr e, wk.trace ++ [.callErr u e]⟩ }
      | none =>
        some { s with calls := s.calls + 1,
                      workers := s.workers.set w ⟨.recv, wk.trace ++ [.callOk u ()]⟩ }
    | .sendErr e =>
      if s.errorClosed then some { s with panicked := true }
      else if s.errorChan.length < users.length then
        some { s with errorChan := s.errorChan ++ [e],
                      workers := s.workers.set w ⟨.recv, wk.trace ++ [.sentErr e]⟩ }
      else none
    | .sendRes _ => none
    | .sleep => none
    | .done => none

/-- The goroutine of lines 343-346. -/
def closerStep (s : State) : Option State :=
  match s.closer with
  | .wait => if s.wg = 0 then some { s with closer := .closeError } else none
  | .closeError =>
    if s.errorClosed then some { s with panicked := true }
    else some { s with errorClosed := true, closer := .finished }
  | .finished => none

/-- The caller, lines 347-351: log every received error, return `nil` when
`errorChan` is closed and drained. -/
def callerStep (s : State) : Option State :=
  if s.returned then none
  else
    match s.errorChan with
    | e :: rest => some { s with errorChan := rest, logged := s.logged ++ [e] }
    | [] => if s.errorClosed then some { s with returned := true } else none

/-- One move of the goroutine named by the action. -/
def step (op : Nat → String → String → Option Error)
    (users : List ClientInfoResponse) (message : String)
    (a : Action) (s : State) : Option State :=
  if s.panicked then none
  else
    match a with
    | .producer => producerStep users s
    | .worker w => workerStep op users message w s
    | .closer => closerStep s
    | .caller => callerStep s

/-- Run a schedule; `none` when some action of it was not enabled. -/
def run (op : Nat → String → String → Option Error)
    (users : List ClientInfoResponse) (message : String) :
    List Action → State → Option State
  | [], s => some s
  | a :: as, s => (step op users message a s).bind (run op users message as)

/-- The states some schedule leads to from the initial state. -/
def Reachable (op : Nat → String → String → Option Error)
    (users : List ClientInfoResponse) (message : String)
    (workers : Int) (start_index : Int) (s : State) : Prop :=
  ∃ sched, run op users message sched (init workers start_index) = some s

/-- The recipients passed to `Malling` so far, over all workers. -/
def attempts (s : State) : List ClientInfoResponse :=
  s.workers.flatMap (fun wk => wk.trace.filterMap Event.called)

end MassMalling

/-! ## Quantities and invariants used in the proofs -/

/-- Sum of a quantity over the workers of a pool. -/
def wsum {α ρ M : Type} [AddCommMonoid M] (f : Worker α ρ → M) (ws : List (Worker α ρ)) : M :=
  (ws.map f).sum

/-- One if the worker goroutine has not exited yet. -/
def PC.alive {α ρ : Type} : PC α ρ → Nat
  | .done => 0
  | _ => 1

/-- Whether the worker has sent a result and not paused since. -/
def PC.owesPause {α ρ : Type} : PC α ρ → Bool
  | .sendRes _ => true
  | .sleep => true
  | _ => false

/-- The item a worker has claimed and not yet passed to the operation. -/
def PC.holding {α ρ : Type} : PC α ρ → List α
  | .call x => [x]
  | _ => []

/-- The result a worker is about to send. -/
def PC.pendingRes {α ρ : Type} : PC α ρ → List ρ
  | .sendRes r => [r]
  | _ => []

/-- The error a worker is about to send. -/
def PC.pendingErr {α ρ : Type} : PC α ρ → List Error
  | .sendErr e => [e]
  | _ => []

/-- The success values the operation returned to a worker. -/
def Event.okResult {α ρ : Type} : Event α ρ → Option ρ
  | .callOk _ r => some r
  | _ => none

/-- The errors the operation returned to a worker. -/
def Event.errResult {α ρ : Type} : Event α ρ → Option Error
  | .callErr _ e => some e
  | _ => none

/-- A recorded call outcome is one the remote operation gave on that item. -/
def Event.answered {α ρ : Type} (call : Nat → α → Except Error ρ) : Event α ρ → Prop
  | .callOk x r => ∃ k, call k x = .ok r
  | .callErr x e => ∃ k, call k x = .error e
  | _ => True

namespace GetClientInfoBatch

/-- The remote call of a `GetClientInfoBatch` worker on a claimed client:
`u.GetClientInfo(client.Id)`. -/
def remoteCall (op : Nat → Int → Except Error ClientInfoResponse) (k : Nat) (c : Client) :
    Except Error ClientInfoResponse :=
  op k c.Id

/-- Invariant of a single worker of `GetClientInfoBatch`: it calls the
operation on the items it claimed, in order; it sends the successful outcomes on
the result channel and the failures on the error channel, in order; every
recorded outcome is an answer of the remote operation; and it pauses after
every sent result. -/
structure WorkerOk (op : Nat → Int → Except Error ClientInfoResponse)
    (wk : Worker Client ClientInfoResponse) : Prop where
  called : wk.trace.filterMap Event.called ++ wk.pc.holding = wk.trace.filterMap Event.claimed
  sentOk : wk.trace.filterMap Event.resSent ++ wk.pc.pendingRes
    = wk.trace.filterMap Event.okResult
  sentErr : wk.trace.filterMap Event.errSent ++ wk.pc.pendingErr
    = wk.trace.filterMap Event.errResult
  answers : ∀ e ∈ wk.trace, e.answered (remoteCall op)
  pacing : wk.trace.foldl pacingOkStep (some false) = some wk.pc.owesPause

/-- Invariant of the reachable states of `GetClientInfoBatch`. -/
structure Inv (op : Nat → Int → Except Error ClientInfoResponse) (clients : List Client)
    (workers : Int) (s : State) : Prop where
  notPanicked : s.panicked = false
  next_le : s.next ≤ clients.length
  closed_next : s.clientClosed = true → s.next = clients.length
  items : wsum (fun wk => (↑(wk.trace.filterMap Event.claimed) : Multiset Client)) s.workers
      + ↑s.clientChan + ↑(clients.drop s.next) = (↑clients : Multiset Client)
  count : s.clientChan.length + wsum (fun wk => wk.pc.inflight) s.workers
      + s.resultChan.length + s.results.length + s.errorChan.length = s.next
  collected : wsum (fun wk => (↑(wk.trace.filterMap Event.resSent) : Multiset ClientInfoResponse))
      s.workers = ↑s.results + ↑s.resultChan
  errors : wsum (fun wk => (↑(wk.trace.filterMap Event.errSent) : Multiset Error)) s.workers
      = ↑s.errorChan
  wg_eq : wsum (fun wk => wk.pc.alive) s.workers = s.wg
  closer_wg : s.closer ≠ .wait → s.wg = 0
  resultClosed_iff : s.resultClosed = true ↔ (s.closer = .closeError ∨ s.closer = .finished)
  errorClosed_iff : s.errorClosed = true ↔ s.closer = .finished
  returned_imp : s.returned = true → s.resultClosed = true ∧ s.resultChan = []
  done_imp : ∀ wk ∈ s.workers, wk.pc = .done → s.clientClosed = true ∧ s.clientChan = []
  size : s.workers.length = workers.toNat
  wlocal : ∀ wk ∈ s.workers, WorkerOk op wk

end GetClientInfoBatch

/-- Upper bound on the moves a worker at this point still makes before it is
back at the head of its loop and exits, counting one move of the caller for a
result still to be sent. -/
def PC.weight {α ρ : Type} : PC α ρ → Nat
  | .done => 0
  | .recv => 1
  | .sleep => 2
  | .sendErr _ => 3
  | .sendRes _ => 4
  | .call _ => 5

namespace GetClientInfoBatch

/-- Moves the closing goroutine still makes. -/
def CloserPC.weight : CloserPC → Nat
  | .wait => 3
  | .closeResult => 2
  | .closeError => 1
  | .finished => 0

/-- Upper bound on the number of moves still possible from a state. -/
def stepsLeft (clients : List Client) (s : State) : Nat :=
  (if s.panicked then 0 else 1) + (if s.clientClosed then 0 else 1)
    + 6 * (clients.length - s.next) + 5 * s.clientChan.length
    + wsum (fun wk => wk.pc.weight) s.workers + s.closer.weight
    + s.resultChan.length + (if s.returned then 0 else 1)

end GetClientInfoBatch

namespace MassMalling

/-- The remote call of a `MassMalling` worker on a claimed recipient:
`u.Malling(user.TelegramID, message)`, a `nil` error being success. -/
def remoteCall (op : Nat → String → String → Option Error) (message : String)
    (k : Nat) (u : ClientInfoResponse) : Except Error Unit :=
  match op k u.TelegramID message with
  | some e => .error e
  | none => .ok ()

/-- The recipients the filling loop has still to send when its variable is `i`. -/
def pendingItems (users : List ClientInfoResponse) (i : Int) : List ClientInfoResponse :=
  if i < 0 then [] else users.drop i.toNat

/-- Moves the closing goroutine still makes. -/
def CloserPC.weight : CloserPC → Nat
  | .wait => 2
  | .closeError => 1
  | .finished => 0

/-- Upper bound on the number of moves still possible from a state. -/
def stepsLeft (users : List ClientInfoResponse) (s : State) : Nat :=
  (if s.panicked then 0 else 1) + (if s.userClosed then 0 else 1)
    + 6 * ((users.length : Int) - s.i).toNat + 5 * s.userChan.length
    + wsum (fun wk => wk.pc.weight) s.workers + s.closer.weight
    + s.errorChan.length + (if s.returned then 0 else 1)

/-- Invariant of a single worker of `MassMalling`: it calls the operation on
the items it claimed, in order; it sends the failures on the error channel, in
order; every recorded outcome is an answer of the remote operation; it never
pauses and never stands at a result send or a sleep. -/
structure WorkerOk (op : Nat → String → String → Option Error) (message : String)
    (wk : Worker ClientInfoResponse Unit) : Prop where
  called : wk.trace.filterMap Event.called ++ wk.pc.holding = wk.trace.filterMap Event.claimed
  sentErr : wk.trace.filterMap Event.errSent ++ wk.pc.pendingErr
    = wk.trace.filterMap Event.errResult
  answers : ∀ e ∈ wk.trace, e.answered (remoteCall op message)
  noPause : Event.pause ∉ wk.trace
  pcOk : wk.pc.owesPause = false

/-- Invariant of the reachable states of `MassMalling`. -/
structure Inv (op : Nat → String → String → Option Error) (users : List ClientInfoResponse)
    (message : String) (workers : Int) (start_index : Int) (s : State) : Prop where
  panic_imp : s.panicked = true → start_index < 0
  i_ge : start_index ≤ s.i
  advanced : start_index < s.i → 0 ≤ start_index ∧ s.i ≤ users.length
  closed_i : s.userClosed = true → (users.length : Int) ≤ s.i
  items : wsum (fun wk => (↑(wk.trace.filterMap Event.claimed) : Multiset ClientInfoResponse))
      s.workers + ↑s.userChan + ↑(pendingItems users s.i)
      = (↑(pendingItems users start_index) : Multiset ClientInfoResponse)
  count : s.userChan.length + wsum (fun wk => wk.pc.inflight) s.workers
      + s.errorChan.length + s.logged.length ≤ (s.i - start_index).toNat
  errors : wsum (fun wk => (↑(wk.trace.filterMap Event.errSent) : Multiset Error)) s.workers
      = ↑s.logged + ↑s.errorChan
  wg_eq : wsum (fun wk => wk.pc.alive) s.workers = s.wg
  closer_wg : s.closer ≠ .wait → s.wg = 0
  errorClosed_iff : s.errorClosed = true ↔ s.closer = .finished
  returned_imp : s.returned = true → s.errorClosed = true ∧ s.errorChan = []
  done_imp : ∀ wk ∈ s.workers, wk.pc = .done → s.userClosed = true ∧ s.userChan = []
  size : s.workers.length = workers.toNat
  wlocal : ∀ wk ∈ s.workers, WorkerOk op message wk

end MassMalling

/-- All items claimed by the workers of a pool. -/
def claimedBy {α ρ : Type} (ws : List (Worker α ρ)) : List α :=
  ws.flatMap (fun wk => wk.trace.filterMap Event.claimed)

/-- All values the workers of a pool have sent on the result channel. -/
def resultsSentBy {α ρ : Type} (ws : List (Worker α ρ)) : List ρ :=
  ws.flatMap (fun wk => wk.trace.filterMap Event.resSent)

/-- All errors the workers of a pool have sent on the error channel. -/
def errorsSentBy {α ρ : Type} (ws : List (Worker α ρ)) : List Error :=
  ws.flatMap (fun wk => wk.trace.filterMap Event.errSent)

/-! ## Concrete inputs -/

/-- A listing row with the given identifier, status 0, reachable on Telegram. -/
def sampleClient (id : Int) : Client :=
  { Id := id, Caption := "", Description := "", UserName := "", IsGroup := false,
    Status := 0, BotId := 0, Block := false, MessageCount := "", Max := 0, Coin := 0,
    CountRef := 0, IsTelegram := true, IsVK := false, IsFb := false, VkId := "" }

/-- A detail record for the given identifier. -/
def sampleInfo (id : Int) : ClientInfoResponse :=
  { ID := id, TelegramID := "tg", UserName := "user" }

/-- A detail lookup that fails on identifier 2 and succeeds elsewhere. -/
def sampleOp : Nat → Int → Except Error ClientInfoResponse :=
  fun _ id => if id = 2 then .error (.transport "timeout") else .ok (sampleInfo id)

/-- A detail lookup that always fails. -/
def failingOp : Nat → Int → Except Error ClientInfoResponse :=
  fun _ _ => .error (.transport "timeout")

/-- A send operation that always succeeds. -/
def sampleSend : Nat → String → String → Option Error :=
  fun _ _ _ => none

/-- The run in which `GetClients` fails while every other call succeeds. -/
def listingFails : MainEnv :=
  { loadConfig := none
    GetAccessToken := .ok "token"
    TestMalling := none
    GetClients := .error (.transport "connection refused")
    SaveClientsToJSON := fun _ => none
    GetClientInfoBatch := fun _ => []
    SaveClientInfoToJSON := fun _ => none }

end MallingWh

/-! ## Theorems -/

namespace MallingWh

/-! ### Sums over the worker pool -/

theorem wsum_nil {α ρ M : Type} [AddCommMonoid M] (f : Worker α ρ → M) :
    wsum f [] = 0 := rfl

theorem wsum_cons {α ρ M : Type} [AddCommMonoid M] (f : Worker α ρ → M)
    (a : Worker α ρ) (ws : List (Worker α ρ)) :
    wsum f (a :: ws) = f a + wsum f ws := by
  simp [wsum]

theorem le_wsum {α ρ : Type} (f : Worker α ρ → Nat) {ws : List (Worker α ρ)}
    {wk : Worker α ρ} (h : wk ∈ ws) : f wk ≤ wsum f ws := by
  induction ws with
  | nil => simp at h
  | cons a t ih =>
    rw [wsum_cons]
    rcases List.mem_cons.1 h with h | h
    · subst h; omega
    · have := ih h; omega

theorem wsum_eq_zero {α ρ : Type} (f : Worker α ρ → Nat) {ws : List (Worker α ρ)}
    (h : ∀ wk ∈ ws, f wk = 0) : wsum f ws = 0 := by
  induction ws with
  | nil => rfl
  | cons a t ih =>
    rw [wsum_cons, h a (List.mem_cons_self _ _), ih (fun wk hwk => h wk (List.mem_cons_of_mem _ hwk))]

theorem wsum_replicate {α ρ M : Type} [AddCommMonoid M] (f : Worker α ρ → M)
    (k : Nat) (wk : Worker α ρ) (h : f wk = 0) : wsum f (List.replicate k wk) = 0 := by
  induction k with
  | zero => rfl
  | succ k ih => rw [List.replicate_succ, wsum_cons, h, ih, add_zero]

theorem wsum_alive_replicate {α ρ : Type} (f : Worker α ρ → Nat)
    (k : Nat) (wk : Worker α ρ) (h : f wk = 1) : wsum f (List.replicate k wk) = k := by
  induction k with
  | zero => rfl
  | succ k ih => rw [List.replicate_succ, wsum_cons, h, ih]; omega

theorem mem_of_getElem?_eq_some {α : Type} {l : List α} {i : Nat} {a : α}
    (h : l[i]? = some a) : a ∈ l := by
  rw [List.getElem?_eq_some] at h
  obtain ⟨hi, rfl⟩ := h
  exact List.getElem_mem _

theorem forall_mem_set {α : Type} {P : α → Prop} {l : List α} {i : Nat} {y : α}
    (h : ∀ x ∈ l, P x) (hy : P y) : ∀ x ∈ l.set i y, P x := by
  intro x hx
  rcases List.mem_or_eq_of_mem_set hx with hx | rfl
  · exact h x hx
  · exact hy

theorem coe_snoc {α : Type} (l : List α) (x : α) :
    ((l ++ [x] : List α) : Multiset α) = ↑l + {x} := by
  rw [← Multiset.coe_singleton, Multiset.coe_add]

theorem coe_cons_add {α : Type} (l : List α) (x : α) :
    ((x :: l : List α) : Multiset α) = {x} + ↑l := by
  rw [← Multiset.cons_coe, Multiset.singleton_add]

namespace GetClientInfoBatch

/-! ### GetClientInfoBatch: the invariant is preserved by every move -/

theorem inv_init (op : Nat → Int → Except Error ClientInfoResponse) (clients : List Client)
    (workers : Int) : Inv op clients workers (init workers) where
  notPanicked := rfl
  next_le := Nat.zero_le _
  closed_next := by simp [init]
  items := by simp [init, wsum_replicate]
  count := by simp [init, wsum_replicate, PC.inflight]
  collected := by simp [init, wsum_replicate]
  errors := by simp [init, wsum_replicate]
  wg_eq := by simp [init, wsum_alive_replicate, PC.alive]
  closer_wg := by simp [init]
  resultClosed_iff := by simp [init]
  errorClosed_iff := by simp [init]
  returned_imp := by simp [init]
  done_imp := by
    intro wk hwk hpc
    simp [init] at hwk
    rw [hwk.2] at hpc
    cases hpc
  size := by simp [init]
  wlocal := by
    intro wk hwk
    simp [init] at hwk
    rw [hwk.2]
    exact ⟨rfl, rfl, rfl, by simp, rfl⟩

theorem inv_producerStep {op : Nat → Int → Except Error ClientInfoResponse}
    {clients : List Client} {workers : Int} {s s2 : State}
    (h : Inv op clients workers s) (hs : producerStep clients s = some s2) :
    Inv op clients workers s2 := by
  unfold producerStep at hs
  split_ifs at hs with h1 h2 h3
  · simp only [Option.some.injEq] at hs
    subst hs
    constructor
    all_goals first
      | exact h.notPanicked | exact h.collected | exact h.errors | exact h.wg_eq
      | exact h.closer_wg | exact h.resultClosed_iff | exact h.errorClosed_iff
      | exact h.returned_imp | exact h.size | exact h.wlocal | skip
    · show s.next + 1 ≤ clients.length
      omega
    · intro hc
      exact absurd hc h1
    · dsimp only
      have hi := h.items
      rw [List.drop_eq_getElem_cons h2, coe_cons_add] at hi
      rw [coe_snoc, ← hi]
      abel
    · dsimp only
      have hc := h.count
      simp only [List.length_append, List.length_singleton]
      omega
    · intro wk hwk hpc
      exact absurd (h.done_imp wk hwk hpc).1 h1
  · simp only [Option.some.injEq] at hs
    subst hs
    constructor
    all_goals first
      | exact h.notPanicked | exact h.next_le | exact h.items | exact h.count
      | exact h.collected | exact h.errors | exact h.wg_eq
      | exact h.closer_wg | exact h.resultClosed_iff | exact h.errorClosed_iff
      | exact h.returned_imp | exact h.size | exact h.wlocal | skip
    · intro _
      have := h.next_le
      show s.next = clients.length
      omega
    · intro wk hwk hpc
      exact absurd (h.done_imp wk hwk hpc).1 h1

theorem inv_closerStep {op : Nat → Int → Except Error ClientInfoResponse}
    {clients : List Client} {workers : Int} {s s2 : State}
    (h : Inv op clients workers s) (hs : closerStep s = some s2) :
    Inv op clients workers s2 := by
  unfold closerStep at hs
  cases hc : s.closer with
  | wait =>
    simp only [hc] at hs
    split_ifs at hs with h1
    simp only [Option.some.injEq] at hs
    subst hs
    constructor
    all_goals first
      | exact h.notPanicked | exact h.next_le | exact h.closed_next | exact h.items
      | exact h.count | exact h.collected | exact h.errors | exact h.wg_eq
      | exact h.returned_imp | exact h.done_imp | exact h.size | exact h.wlocal | skip
    · intro _
      exact h1
    · have := h.resultClosed_iff
      simp only [hc] at this
      simpa using this
    · have := h.errorClosed_iff
      simp only [hc] at this
      simpa using this
  | closeResult =>
    simp only [hc] at hs
    have hr : ¬ s.resultClosed = true := by
      rw [h.resultClosed_iff, hc]
      simp
    rw [if_neg hr] at hs
    simp only [Option.some.injEq] at hs
    subst hs
    constructor
    all_goals first
      | exact h.notPanicked | exact h.next_le | exact h.closed_next | exact h.items
      | exact h.count | exact h.collected | exact h.errors | exact h.wg_eq
      | exact h.done_imp | exact h.size | exact h.wlocal | skip
    · intro _
      exact h.closer_wg (by rw [hc]; simp)
    · simp
    · have := h.errorClosed_iff
      simp only [hc] at this
      simpa using this
    · intro hret
      exact absurd (h.returned_imp hret).1 hr
  | closeError =>
    simp only [hc] at hs
    have hr : ¬ s.errorClosed = true := by
      rw [h.errorClosed_iff, hc]
      simp
    rw [if_neg hr] at hs
    simp only [Option.some.injEq] at hs
    subst hs
    constructor
    all_goals first
      | exact h.notPanicked | exact h.next_le | exact h.closed_next | exact h.items
      | exact h.count | exact h.collected | exact h.errors | exact h.wg_eq
      | exact h.returned_imp | exact h.done_imp | exact h.size | exact h.wlocal | skip
    · intro _
      exact h.closer_wg (by rw [hc]; simp)
    · have := h.resultClosed_iff
      simp only [hc] at this
      simpa using this
    · simp
  | finished => simp [hc] at hs

theorem inv_callerStep {op : Nat → Int → Except Error ClientInfoResponse}
    {clients : List Client} {workers : Int} {s s2 : State}
    (h : Inv op clients workers s) (hs : callerStep s = some s2) :
    Inv op clients workers s2 := by
  unfold callerStep at hs
  by_cases h1 : s.returned = true
  · simp [h1] at hs
  rw [if_neg h1] at hs
  split at hs
  · rename_i r rest hc
    simp only [Option.some.injEq] at hs
    subst hs
    constructor
    all_goals first
      | exact h.notPanicked | exact h.next_le | exact h.closed_next | exact h.items
      | exact h.errors | exact h.wg_eq
      | exact h.closer_wg | exact h.resultClosed_iff | exact h.errorClosed_iff
      | exact h.done_imp | exact h.size | exact h.wlocal | skip
    · dsimp only
      have := h.count
      rw [hc] at this
      simp only [List.length_cons, List.length_append, List.length_singleton,
        List.length_nil] at this ⊢
      omega
    · dsimp only
      have := h.collected
      rw [hc, coe_cons_add] at this
      rw [this, coe_snoc]
      abel
    · intro hret
      exact absurd hret h1
  · rename_i hc
    by_cases h2 : s.resultClosed = true
    swap
    · simp [h2] at hs
    rw [if_pos h2] at hs
    simp only [Option.some.injEq] at hs
    subst hs
    constructor
    all_goals first
      | exact h.notPanicked | exact h.next_le | exact h.closed_next | exact h.items
      | exact h.count | exact h.collected | exact h.errors | exact h.wg_eq
      | exact h.closer_wg | exact h.resultClosed_iff | exact h.errorClosed_iff
      | exact h.done_imp | exact h.size | exact h.wlocal | skip
    · intro _
      exact ⟨h2, hc⟩

end GetClientInfoBatch

theorem wsum_append {α ρ M : Type} [AddCommMonoid M] (f : Worker α ρ → M)
    (l1 l2 : List (Worker α ρ)) : wsum f (l1 ++ l2) = wsum f l1 + wsum f l2 := by
  simp [wsum]

theorem split_at_worker {α : Type} {l : List α} {i : Nat} {a : α} (h : l[i]? = some a) :
    ∃ pre post, l = pre ++ a :: post ∧ ∀ b, l.set i b = pre ++ b :: post := by
  induction l generalizing i with
  | nil => simp at h
  | cons x t ih =>
    cases i with
    | zero =>
      simp at h
      subst h
      exact ⟨[], t, rfl, fun b => rfl⟩
    | succ k =>
      simp at h
      obtain ⟨pre, post, h1, h2⟩ := ih h
      refine ⟨x :: pre, post, by rw [h1]; rfl, fun b => ?_⟩
      rw [List.set_cons_succ, h2]
      rfl

namespace GetClientInfoBatch

theorem inv_workerStep {op : Nat → Int → Except Error ClientInfoResponse}
    {clients : List Client} {workers : Int} {w : Nat} {s s2 : State}
    (h : Inv op clients workers s) (hs : workerStep op clients w s = some s2) :
    Inv op clients workers s2 := by
  unfold workerStep at hs
  cases hw : s.workers[w]? with
  | none => simp [hw] at hs
  | some wk =>
    simp only [hw] at hs
    have hmem := mem_of_getElem?_eq_some hw
    have hl := h.wlocal wk hmem
    have halive := le_wsum (fun wk => wk.pc.alive) hmem
    rw [h.wg_eq] at halive
    obtain ⟨pre, post, hsplit, hset⟩ := split_at_worker hw
    obtain ⟨pc, tr⟩ := wk
    cases pc with
    | recv =>
      simp only at hs
      split at hs
      · rename_i c rest hc
        simp only [Option.some.injEq] at hs
        subst hs
        constructor
        all_goals first
          | exact h.notPanicked | exact h.next_le | exact h.closed_next | exact h.closer_wg | exact h.resultClosed_iff | exact h.errorClosed_iff | exact h.returned_imp
          | (dsimp only
             have hf := h.items
             rw [hsplit] at hf
             try rw [hc] at hf
             rw [hset]
             simp only [wsum_append, wsum_cons, List.filterMap_append, List.filterMap_cons, List.filterMap_nil,
            Event.claimed, Event.called, Event.resSent, Event.errSent, PC.inflight, PC.alive,
            coe_snoc, coe_cons_add, List.length_cons, List.length_append, List.length_nil,
            List.append_nil, add_zero, zero_add] at hf ⊢
             first | exact hf | (rw [← hf]; abel))
          | (dsimp only
             have hf := h.count
             rw [hsplit] at hf
             try rw [hc] at hf
             rw [hset]
             simp only [wsum_append, wsum_cons, List.filterMap_append, List.filterMap_cons, List.filterMap_nil,
            Event.claimed, Event.called, Event.resSent, Event.errSent, PC.inflight, PC.alive,
            coe_snoc, coe_cons_add, List.length_cons, List.length_append, List.length_nil,
            List.append_nil, add_zero, zero_add] at hf ⊢
             omega)
          | (dsimp only
             have hf := h.collected
             rw [hsplit] at hf
             try rw [hc] at hf
             rw [hset]
             simp only [wsum_append, wsum_cons, List.filterMap_append, List.filterMap_cons, List.filterMap_nil,
            Event.claimed, Event.called, Event.resSent, Event.errSent, PC.inflight, PC.alive,
            coe_snoc, coe_cons_add, List.length_cons, List.length_append, List.length_nil,
            List.append_nil, add_zero, zero_add] at hf ⊢
             first | exact hf | (rw [← hf]; abel) | (rw [← add_assoc, ← hf]; abel))
          | (dsimp only
             have hf := h.errors
             rw [hsplit] at hf
             try rw [hc] at hf
             rw [hset]
             simp only [wsum_append, wsum_cons, List.filterMap_append, List.filterMap_cons, List.filterMap_nil,
            Event.claimed, Event.called, Event.resSent, Event.errSent, PC.inflight, PC.alive,
            coe_snoc, coe_cons_add, List.length_cons, List.length_append, List.length_nil,
            List.append_nil, add_zero, zero_add] at hf ⊢
             first | exact hf | (rw [← hf]; abel) | (rw [← add_assoc, ← hf]; abel))
          | (dsimp only
             have hf := h.wg_eq
             rw [hsplit] at hf
             try rw [hc] at hf
             rw [hset]
             simp only [wsum_append, wsum_cons, List.filterMap_append, List.filterMap_cons, List.filterMap_nil,
            Event.claimed, Event.called, Event.resSent, Event.errSent, PC.inflight, PC.alive,
            coe_snoc, coe_cons_add, List.length_cons, List.length_append, List.length_nil,
            List.append_nil, add_zero, zero_add] at hf ⊢
             omega)
          | (dsimp only
             rw [List.length_set]
             exact h.size)
          | skip
        · intro wk hwk hpc
          rcases List.mem_or_eq_of_mem_set hwk with hwk | rfl
          · have := (h.done_imp wk hwk hpc).2
            rw [hc] at this
            cases this
          · cases hpc
        · refine forall_mem_set h.wlocal ⟨?_, ?_, ?_, ?_, ?_⟩
          · have := hl.called
            simp only [List.filterMap_append, List.filterMap_cons, List.filterMap_nil,
              Event.claimed, Event.called, PC.holding, List.append_nil, List.append_assoc] at this ⊢
            first | exact this | rw [this] | rw [← this]
          · have := hl.sentOk
            simp only [List.filterMap_append, List.filterMap_cons, List.filterMap_nil,
              Event.resSent, Event.okResult, PC.pendingRes, List.append_nil,
              List.append_assoc] at this ⊢
            first | exact this | rw [this] | rw [← this]
          · have := hl.sentErr
            simp only [List.filterMap_append, List.filterMap_cons, List.filterMap_nil,
              Event.errSent, Event.errResult, PC.pendingErr, List.append_nil,
              List.append_assoc] at this ⊢
            first | exact this | rw [this] | rw [← this]
          · intro ev hev
            rcases List.mem_append.1 hev with hev | hev
            · exact hl.answers ev hev
            · rw [List.mem_singleton] at hev
              subst hev
              exact trivial
          · have := hl.pacing
            simp only [List.foldl_append, List.foldl_cons, List.foldl_nil, PC.owesPause] at this ⊢
            first | exact this | (rw [this]; rfl)
      · rename_i hc
        by_cases hcl : s.clientClosed = true
        swap
        · simp [hcl] at hs
        rw [if_pos hcl] at hs
        have hwg : ¬ s.wg = 0 := by
          simp only [PC.alive] at halive
          omega
        rw [if_neg hwg] at hs
        simp only [Option.some.injEq] at hs
        subst hs
        constructor
        all_goals first
          | exact h.notPanicked | exact h.next_le | exact h.closed_next | exact h.resultClosed_iff | exact h.errorClosed_iff | exact h.returned_imp
          | (dsimp only
             have hf := h.items
             rw [hsplit] at hf
             rw [hset]
             simp only [wsum_append, wsum_cons, List.filterMap_append, List.filterMap_cons, List.filterMap_nil,
            Event.claimed, Event.called, Event.resSent, Event.errSent, PC.inflight, PC.alive,
            coe_snoc, coe_cons_add, List.length_cons, List.length_append, List.length_nil,
            List.append_nil, add_zero, zero_add] at hf ⊢
             first | exact hf | (rw [← hf]; abel))
          | (dsimp only
             have hf := h.count
             rw [hsplit] at hf
             rw [hset]
             simp only [wsum_append, wsum_cons, List.filterMap_append, List.filterMap_cons, List.filterMap_nil,
            Event.claimed, Event.called, Event.resSent, Event.errSent, PC.inflight, PC.alive,
            coe_snoc, coe_cons_add, List.length_cons, List.length_append, List.length_nil,
            List.append_nil, add_zero, zero_add] at hf ⊢
             omega)
          | (dsimp only
             have hf := h.collected
             rw [hsplit] at hf
             rw [hset]
             simp only [wsum_append, wsum_cons, List.filterMap_append, List.filterMap_cons, List.filterMap_nil,
            Event.claimed, Event.called, Event.resSent, Event.errSent, PC.inflight, PC.alive,
            coe_snoc, coe_cons_add, List.length_cons, List.length_append, List.length_nil,
            List.append_nil, add_zero, zero_add] at hf ⊢
             first | exact hf | (rw [← hf]; abel) | (rw [← add_assoc, ← hf]; abel))
          | (dsimp only
             have hf := h.errors
             rw [hsplit] at hf
             rw [hset]
             simp only [wsum_append, wsum_cons, List.filterMap_append, List.filterMap_cons, List.filterMap_nil,
            Event.claimed, Event.called, Event.resSent, Event.errSent, PC.inflight, PC.alive,
            coe_snoc, coe_cons_add, List.length_cons, List.length_append, List.length_nil,
            List.append_nil, add_zero, zero_add] at hf ⊢
             first | exact hf | (rw [← hf]; abel) | (rw [← add_assoc, ← hf]; abel))
          | (dsimp only
             have hf := h.wg_eq
             rw [hsplit] at hf
             rw [hset]
             simp only [wsum_append, wsum_cons, List.filterMap_append, List.filterMap_cons, List.filterMap_nil,
            Event.claimed, Event.called, Event.resSent, Event.errSent, PC.inflight, PC.alive,
            coe_snoc, coe_cons_add, List.length_cons, List.length_append, List.length_nil,
            List.append_nil, add_zero, zero_add] at hf ⊢
             omega)
          | (dsimp only
             rw [List.length_set]
             exact h.size)
          | skip
        · intro hne
          exact absurd (h.closer_wg hne) hwg
        · intro wk hwk hpc
          exact ⟨hcl, hc⟩
        · refine forall_mem_set h.wlocal ⟨?_, ?_, ?_, ?_, ?_⟩
          · exact hl.called
          · exact hl.sentOk
          · exact hl.sentErr
          · exact hl.answers
          · exact hl.pacing
    | call c =>
      simp only at hs
      split at hs
      · rename_i e hop
        simp only [Option.some.injEq] at hs
        subst hs
        constructor
        all_goals first
          | exact h.notPanicked | exact h.next_le | exact h.closed_next | exact h.closer_wg | exact h.resultClosed_iff | exact h.errorClosed_iff | exact h.returned_imp
          | (dsimp only
             have hf := h.items
             rw [hsplit] at hf
             rw [hset]
             simp only [wsum_append, wsum_cons, List.filterMap_append, List.filterMap_cons, List.filterMap_nil,
            Event.claimed, Event.called, Event.resSent, Event.errSent, PC.inflight, PC.alive,
            coe_snoc, coe_cons_add, List.length_cons, List.length_append, List.length_nil,
            List.append_nil, add_zero, zero_add] at hf ⊢
             first | exact hf | (rw [← hf]; abel))
          | (dsimp only
             have hf := h.count
             rw [hsplit] at hf
             rw [hset]
             simp only [wsum_append, wsum_cons, List.filterMap_append, List.filterMap_cons, List.filterMap_nil,
            Event.claimed, Event.called, Event.resSent, Event.errSent, PC.inflight, PC.alive,
            coe_snoc, coe_cons_add, List.length_cons, List.length_append, List.length_nil,
            List.append_nil, add_zero, zero_add] at hf ⊢
             omega)
          | (dsimp only
             have hf := h.collected
             rw [hsplit] at hf
             rw [hset]
             simp only [wsum_append, wsum_cons, List.filterMap_append, List.filterMap_cons, List.filterMap_nil,
            Event.claimed, Event.called, Event.resSent, Event.errSent, PC.inflight, PC.alive,
            coe_snoc, coe_cons_add, List.length_cons, List.length_append, List.length_nil,
            List.append_nil, add_zero, zero_add] at hf ⊢
             first | exact hf | (rw [← hf]; abel) | (rw [← add_assoc, ← hf]; abel))
          | (dsimp only
             have hf := h.errors
             rw [hsplit] at hf
             rw [hset]
             simp only [wsum_append, wsum_cons, List.filterMap_append, List.filterMap_cons, List.filterMap_nil,
            Event.claimed, Event.called, Event.resSent, Event.errSent, PC.inflight, PC.alive,
            coe_snoc, coe_cons_add, List.length_cons, List.length_append, List.length_nil,
            List.append_nil, add_zero, zero_add] at hf ⊢
             first | exact hf | (rw [← hf]; abel) | (rw [← add_assoc, ← hf]; abel))
          | (dsimp only
             have hf := h.wg_eq
             rw [hsplit] at hf
             rw [hset]
             simp only [wsum_append, wsum_cons, List.filterMap_append, List.filterMap_cons, List.filterMap_nil,
            Event.claimed, Event.called, Event.resSent, Event.errSent, PC.inflight, PC.alive,
            coe_snoc, coe_cons_add, List.length_cons, List.length_append, List.length_nil,
            List.append_nil, add_zero, zero_add] at hf ⊢
             omega)
          | (dsimp only
             rw [List.length_set]
             exact h.size)
          | skip
        · intro wk hwk hpc
          rcases List.mem_or_eq_of_mem_set hwk with hwk | rfl
          · exact h.done_imp wk hwk hpc
          · cases hpc
        · refine forall_mem_set h.wlocal ⟨?_, ?_, ?_, ?_, ?_⟩
          · have := hl.called
            simp only [List.filterMap_append, List.filterMap_cons, List.filterMap_nil,
              Event.claimed, Event.called, PC.holding, List.append_nil, List.append_assoc] at this ⊢
            first | exact this | rw [this] | rw [← this]
          · have := hl.sentOk
            simp only [List.filterMap_append, List.filterMap_cons, List.filterMap_nil,
              Event.resSent, Event.okResult, PC.pendingRes, List.append_nil,
              List.append_assoc] at this ⊢
            first | exact this | rw [this] | rw [← this]
          · have := hl.sentErr
            simp only [List.filterMap_append, List.filterMap_cons, List.filterMap_nil,
              Event.errSent, Event.errResult, PC.pendingErr, List.append_nil,
              List.append_assoc] at this ⊢
            first | exact this | rw [this] | rw [← this]
          · intro ev hev
            rcases List.mem_append.1 hev with hev | hev
            · exact hl.answers ev hev
            · rw [List.mem_singleton] at hev
              subst hev
              exact ⟨s.calls, hop⟩
          · have := hl.pacing
            simp only [List.foldl_append, List.foldl_cons, List.foldl_nil, PC.owesPause] at this ⊢
            first | exact this | (rw [this]; rfl)
      · rename_i info hop
        simp only [Option.some.injEq] at hs
        subst hs
        constructor
        all_goals first
          | exact h.notPanicked | exact h.next_le | exact h.closed_next | exact h.closer_wg | exact h.resultClosed_iff | exact h.errorClosed_iff | exact h.returned_imp
          | (dsimp only
             have hf := h.items
             rw [hsplit] at hf
             rw [hset]
             simp only [wsum_append, wsum_cons, List.filterMap_append, List.filterMap_cons, List.filterMap_nil,
            Event.claimed, Event.called, Event.resSent, Event.errSent, PC.inflight, PC.alive,
            coe_snoc, coe_cons_add, List.length_cons, List.length_append, List.length_nil,
            List.append_nil, add_zero, zero_add] at hf ⊢
             first | exact hf | (rw [← hf]; abel))
          | (dsimp only
             have hf := h.count
             rw [hsplit] at hf
             rw [hset]
             simp only [wsum_append, wsum_cons, List.filterMap_append, List.filterMap_cons, List.filterMap_nil,
            Event.claimed, Event.called, Event.resSent, Event.errSent, PC.inflight, PC.alive,
            coe_snoc, coe_cons_add, List.length_cons, List.length_append, List.length_nil,
            List.append_nil, add_zero, zero_add] at hf ⊢
             omega)
          | (dsimp only
             have hf := h.collected
             rw [hsplit] at hf
             rw [hset]
             simp only [wsum_append, wsum_cons, List.filterMap_append, List.filterMap_cons, List.filterMap_nil,
            Event.claimed, Event.called, Event.resSent, Event.errSent, PC.inflight, PC.alive,
            coe_snoc, coe_cons_add, List.length_cons, List.length_append, List.length_nil,
            List.append_nil, add_zero, zero_add] at hf ⊢
             first | exact hf | (rw [← hf]; abel) | (rw [← add_assoc, ← hf]; abel))
          | (dsimp only
             have hf := h.errors
             rw [hsplit] at hf
             rw [hset]
             simp only [wsum_append, wsum_cons, List.filterMap_append, List.filterMap_cons, List.filterMap_nil,
            Event.claimed, Event.called, Event.resSent, Event.errSent, PC.inflight, PC.alive,
            coe_snoc, coe_cons_add, List.length_cons, List.length_append, List.length_nil,
            List.append_nil, add_zero, zero_add] at hf ⊢
             first | exact hf | (rw [← hf]; abel) | (rw [← add_assoc, ← hf]; abel))
          | (dsimp only
             have hf := h.wg_eq
             rw [hsplit] at hf
             rw [hset]
             simp only [wsum_append, wsum_cons, List.filterMap_append, List.filterMap_cons, List.filterMap_nil,
            Event.claimed, Event.called, Event.resSent, Event.errSent, PC.inflight, PC.alive,
            coe_snoc, coe_cons_add, List.length_cons, List.length_append, List.length_nil,
            List.append_nil, add_zero, zero_add] at hf ⊢
             omega)
          | (dsimp only
             rw [List.length_set]
             exact h.size)
          | skip
        · intro wk hwk hpc
          rcases List.mem_or_eq_of_mem_set hwk with hwk | rfl
          · exact h.done_imp wk hwk hpc
          · cases hpc
        · refine forall_mem_set h.wlocal ⟨?_, ?_, ?_, ?_, ?_⟩
          · have := hl.called
            simp only [List.filterMap_append, List.filterMap_cons, List.filterMap_nil,
              Event.claimed, Event.called, PC.holding, List.append_nil, List.append_assoc] at this ⊢
            first | exact this | rw [this] | rw [← this]
          · have := hl.sentOk
            simp only [List.filterMap_append, List.filterMap_cons, List.filterMap_nil,
              Event.resSent, Event.okResult, PC.pendingRes, List.append_nil,
              List.append_assoc] at this ⊢
            first | exact this | rw [this] | rw [← this]
          · have := hl.sentErr
            simp only [List.filterMap_append, List.filterMap_cons, List.filterMap_nil,
              Event.errSent, Event.errResult, PC.pendingErr, List.append_nil,
              List.append_assoc] at this ⊢
            first | exact this | rw [this] | rw [← this]
          · intro ev hev
            rcases List.mem_append.1 hev with hev | hev
            · exact hl.answers ev hev
            · rw [List.mem_singleton] at hev
              subst hev
              exact ⟨s.calls, hop⟩
          · have := hl.pacing
            simp only [List.foldl_append, List.foldl_cons, List.foldl_nil, PC.owesPause] at this ⊢
            first | exact this | (rw [this]; rfl)
    | sendErr e =>
      simp only at hs
      have hopen : ¬ s.errorClosed = true := by
        intro hcl
        have := h.closer_wg (by rw [(h.errorClosed_iff).1 hcl]; simp)
        simp only [PC.alive] at halive
        omega
      rw [if_neg hopen] at hs
      split_ifs at hs with hcap
      · simp only [Option.some.injEq] at hs
        subst hs
        constructor
        all_goals first
          | exact h.notPanicked | exact h.next_le | exact h.closed_next | exact h.closer_wg | exact h.resultClosed_iff | exact h.errorClosed_iff | exact h.returned_imp
          | (dsimp only
             have hf := h.items
             rw [hsplit] at hf
             rw [hset]
             simp only [wsum_append, wsum_cons, List.filterMap_append, List.filterMap_cons, List.filterMap_nil,
            Event.claimed, Event.called, Event.resSent, Event.errSent, PC.inflight, PC.alive,
            coe_snoc, coe_cons_add, List.length_cons, List.length_append, List.length_nil,
            List.append_nil, add_zero, zero_add] at hf ⊢
             first | exact hf | (rw [← hf]; abel))
          | (dsimp only
             have hf := h.count
             rw [hsplit] at hf
             rw [hset]
             simp only [wsum_append, wsum_cons, List.filterMap_append, List.filterMap_cons, List.filterMap_nil,
            Event.claimed, Event.called, Event.resSent, Event.errSent, PC.inflight, PC.alive,
            coe_snoc, coe_cons_add, List.length_cons, List.length_append, List.length_nil,
            List.append_nil, add_zero, zero_add] at hf ⊢
             omega)
          | (dsimp only
             have hf := h.collected
             rw [hsplit] at hf
             rw [hset]
             simp only [wsum_append, wsum_cons, List.filterMap_append, List.filterMap_cons, List.filterMap_nil,
            Event.claimed, Event.called, Event.resSent, Event.errSent, PC.inflight, PC.alive,
            coe_snoc, coe_cons_add, List.length_cons, List.length_append, List.length_nil,
            List.append_nil, add_zero, zero_add] at hf ⊢
             first | exact hf | (rw [← hf]; abel) | (rw [← add_assoc, ← hf]; abel))
          | (dsimp only
             have hf := h.errors
             rw [hsplit] at hf
             rw [hset]
             simp only [wsum_append, wsum_cons, List.filterMap_append, List.filterMap_cons, List.filterMap_nil,
            Event.claimed, Event.called, Event.resSent, Event.errSent, PC.inflight, PC.alive,
            coe_snoc, coe_cons_add, List.length_cons, List.length_append, List.length_nil,
            List.append_nil, add_zero, zero_add] at hf ⊢
             first | exact hf | (rw [← hf]; abel) | (rw [← add_assoc, ← hf]; abel))
          | (dsimp only
             have hf := h.wg_eq
             rw [hsplit] at hf
             rw [hset]
             simp only [wsum_append, wsum_cons, List.filterMap_append, List.filterMap_cons, List.filterMap_nil,
            Event.claimed, Event.called, Event.resSent, Event.errSent, PC.inflight, PC.alive,
            coe_snoc, coe_cons_add, List.length_cons, List.length_append, List.length_nil,
            List.append_nil, add_zero, zero_add] at hf ⊢
             omega)
          | (dsimp only
             rw [List.length_set]
             exact h.size)
          | skip
        · intro wk hwk hpc
          rcases List.mem_or_eq_of_mem_set hwk with hwk | rfl
          · exact h.done_imp wk hwk hpc
          · cases hpc
        · refine forall_mem_set h.wlocal ⟨?_, ?_, ?_, ?_, ?_⟩
          · have := hl.called
            simp only [List.filterMap_append, List.filterMap_cons, List.filterMap_nil,
              Event.claimed, Event.called, PC.holding, List.append_nil, List.append_assoc] at this ⊢
            first | exact this | rw [this] | rw [← this]
          · have := hl.sentOk
            simp only [List.filterMap_append, List.filterMap_cons, List.filterMap_nil,
              Event.resSent, Event.okResult, PC.pendingRes, List.append_nil,
              List.append_assoc] at this ⊢
            first | exact this | rw [this] | rw [← this]
          · have := hl.sentErr
            simp only [List.filterMap_append, List.filterMap_cons, List.filterMap_nil,
              Event.errSent, Event.errResult, PC.pendingErr, List.append_nil,
              List.append_assoc] at this ⊢
            first | exact this | rw [this] | rw [← this]
          · intro ev hev
            rcases List.mem_append.1 hev with hev | hev
            · exact hl.answers ev hev
            · rw [List.mem_singleton] at hev
              subst hev
              exact trivial
          · have := hl.pacing
            simp only [List.foldl_append, List.foldl_cons, List.foldl_nil, PC.owesPause] at this ⊢
            first | exact this | (rw [this]; rfl)
    | sendRes r =>
      simp only at hs
      have hopen : ¬ s.resultClosed = true := by
        intro hcl
        have := h.closer_wg (by rcases (h.resultClosed_iff).1 hcl with h1 | h1 <;> rw [h1] <;> simp)
        simp only [PC.alive] at halive
        omega
      rw [if_neg hopen] at hs
      split_ifs at hs with hcap
      · simp only [Option.some.injEq] at hs
        subst hs
        constructor
        all_goals first
          | exact h.notPanicked | exact h.next_le | exact h.closed_next | exact h.closer_wg | exact h.resultClosed_iff | exact h.errorClosed_iff
          | (dsimp only
             have hf := h.items
             rw [hsplit] at hf
             rw [hset]
             simp only [wsum_append, wsum_cons, List.filterMap_append, List.filterMap_cons, List.filterMap_nil,
            Event.claimed, Event.called, Event.resSent, Event.errSent, PC.inflight, PC.alive,
            coe_snoc, coe_cons_add, List.length_cons, List.length_append, List.length_nil,
            List.append_nil, add_zero, zero_add] at hf ⊢
             first | exact hf | (rw [← hf]; abel))
          | (dsimp only
             have hf := h.count
             rw [hsplit] at hf
             rw [hset]
             simp only [wsum_append, wsum_cons, List.filterMap_append, List.filterMap_cons, List.filterMap_nil,
            Event.claimed, Event.called, Event.resSent, Event.errSent, PC.inflight, PC.alive,
            coe_snoc, coe_cons_add, List.length_cons, List.length_append, List.length_nil,
            List.append_nil, add_zero, zero_add] at hf ⊢
             omega)
          | (dsimp only
             have hf := h.collected
             rw [hsplit] at hf
             rw [hset]
             simp only [wsum_append, wsum_cons, List.filterMap_append, List.filterMap_cons, List.filterMap_nil,
            Event.claimed, Event.called, Event.resSent, Event.errSent, PC.inflight, PC.alive,
            coe_snoc, coe_cons_add, List.length_cons, List.length_append, List.length_nil,
            List.append_nil, add_zero, zero_add] at hf ⊢
             first | exact hf | (rw [← hf]; abel) | (rw [← add_assoc, ← hf]; abel))
          | (dsimp only
             have hf := h.errors
             rw [hsplit] at hf
             rw [hset]
             simp only [wsum_append, wsum_cons, List.filterMap_append, List.filterMap_cons, List.filterMap_nil,
            Event.claimed, Event.called, Event.resSent, Event.errSent, PC.inflight, PC.alive,
            coe_snoc, coe_cons_add, List.length_cons, List.length_append, List.length_nil,
            List.append_nil, add_zero, zero_add] at hf ⊢
             first | exact hf | (rw [← hf]; abel) | (rw [← add_assoc, ← hf]; abel))
          | (dsimp only
             have hf := h.wg_eq
             rw [hsplit] at hf
             rw [hset]
             simp only [wsum_append, wsum_cons, List.filterMap_append, List.filterMap_cons, List.filterMap_nil,
            Event.claimed, Event.called, Event.resSent, Event.errSent, PC.inflight, PC.alive,
            coe_snoc, coe_cons_add, List.length_cons, List.length_append, List.length_nil,
            List.append_nil, add_zero, zero_add] at hf ⊢
             omega)
          | (dsimp only
             rw [List.length_set]
             exact h.size)
          | skip
        · dsimp only
          have hf := h.collected
          rw [hsplit] at hf
          rw [hset]
          simp only [wsum_append, wsum_cons, List.filterMap_append, List.filterMap_cons,
            List.filterMap_nil, Event.resSent, coe_snoc] at hf ⊢
          rw [← add_assoc (s.results : Multiset ClientInfoResponse), ← hf]
          abel
        · intro hret
          exact absurd (h.returned_imp hret).1 hopen
        · intro wk hwk hpc
          rcases List.mem_or_eq_of_mem_set hwk with hwk | rfl
          · exact h.done_imp wk hwk hpc
          · cases hpc
        · refine forall_mem_set h.wlocal ⟨?_, ?_, ?_, ?_, ?_⟩
          · have := hl.called
            simp only [List.filterMap_append, List.filterMap_cons, List.filterMap_nil,
              Event.claimed, Event.called, PC.holding, List.append_nil, List.append_assoc] at this ⊢
            first | exact this | rw [this] | rw [← this]
          · have := hl.sentOk
            simp only [List.filterMap_append, List.filterMap_cons, List.filterMap_nil,
              Event.resSent, Event.okResult, PC.pendingRes, List.append_nil,
              List.append_assoc] at this ⊢
            first | exact this | rw [this] | rw [← this]
          · have := hl.sentErr
            simp only [List.filterMap_append, List.filterMap_cons, List.filterMap_nil,
              Event.errSent, Event.errResult, PC.pendingErr, List.append_nil,
              List.append_assoc] at this ⊢
            first | exact this | rw [this] | rw [← this]
          · intro ev hev
            rcases List.mem_append.1 hev with hev | hev
            · exact hl.answers ev hev
            · rw [List.mem_singleton] at hev
              subst hev
              exact trivial
          · have := hl.pacing
            simp only [List.foldl_append, List.foldl_cons, List.foldl_nil, PC.owesPause] at this ⊢
            first | exact this | (rw [this]; rfl)
    | sleep =>
      simp only at hs
      · simp only [Option.some.injEq] at hs
        subst hs
        constructor
        all_goals first
          | exact h.notPanicked | exact h.next_le | exact h.closed_next | exact h.closer_wg | exact h.resultClosed_iff | exact h.errorClosed_iff | exact h.returned_imp
          | (dsimp only
             have hf := h.items
             rw [hsplit] at hf
             rw [hset]
             simp only [wsum_append, wsum_cons, List.filterMap_append, List.filterMap_cons, List.filterMap_nil,
            Event.claimed, Event.called, Event.resSent, Event.errSent, PC.inflight, PC.alive,
            coe_snoc, coe_cons_add, List.length_cons, List.length_append, List.length_nil,
            List.append_nil, add_zero, zero_add] at hf ⊢
             first | exact hf | (rw [← hf]; abel))
          | (dsimp only
             have hf := h.count
             rw [hsplit] at hf
             rw [hset]
             simp only [wsum_append, wsum_cons, List.filterMap_append, List.filterMap_cons, List.filterMap_nil,
            Event.claimed, Event.called, Event.resSent, Event.errSent, PC.inflight, PC.alive,
            coe_snoc, coe_cons_add, List.length_cons, List.length_append, List.length_nil,
            List.append_nil, add_zero, zero_add] at hf ⊢
             omega)
          | (dsimp only
             have hf := h.collected
             rw [hsplit] at hf
             rw [hset]
             simp only [wsum_append, wsum_cons, List.filterMap_append, List.filterMap_cons, List.filterMap_nil,
            Event.claimed, Event.called, Event.resSent, Event.errSent, PC.inflight, PC.alive,
            coe_snoc, coe_cons_add, List.length_cons, List.length_append, List.length_nil,
            List.append_nil, add_zero, zero_add] at hf ⊢
             first | exact hf | (rw [← hf]; abel) | (rw [← add_assoc, ← hf]; abel))
          | (dsimp only
             have hf := h.errors
             rw [hsplit] at hf
             rw [hset]
             simp only [wsum_append, wsum_cons, List.filterMap_append, List.filterMap_cons, List.filterMap_nil,
            Event.claimed, Event.called, Event.resSent, Event.errSent, PC.inflight, PC.alive,
            coe_snoc, coe_cons_add, List.length_cons, List.length_append, List.length_nil,
            List.append_nil, add_zero, zero_add] at hf ⊢
             first | exact hf | (rw [← hf]; abel) | (rw [← add_assoc, ← hf]; abel))
          | (dsimp only
             have hf := h.wg_eq
             rw [hsplit] at hf
             rw [hset]
             simp only [wsum_append, wsum_cons, List.filterMap_append, List.filterMap_cons, List.filterMap_nil,
            Event.claimed, Event.called, Event.resSent, Event.errSent, PC.inflight, PC.alive,
            coe_snoc, coe_cons_add, List.length_cons, List.length_append, List.length_nil,
            List.append_nil, add_zero, zero_add] at hf ⊢
             omega)
          | (dsimp only
             rw [List.length_set]
             exact h.size)
          | skip
        · intro wk hwk hpc
          rcases List.mem_or_eq_of_mem_set hwk with hwk | rfl
          · exact h.done_imp wk hwk hpc
          · cases hpc
        · refine forall_mem_set h.wlocal ⟨?_, ?_, ?_, ?_, ?_⟩
          · have := hl.called
            simp only [List.filterMap_append, List.filterMap_cons, List.filterMap_nil,
              Event.claimed, Event.called, PC.holding, List.append_nil, List.append_assoc] at this ⊢
            first | exact this | rw [this] | rw [← this]
          · have := hl.sentOk
            simp only [List.filterMap_append, List.filterMap_cons, List.filterMap_nil,
              Event.resSent, Event.okResult, PC.pendingRes, List.append_nil,
              List.append_assoc] at this ⊢
            first | exact this | rw [this] | rw [← this]
          · have := hl.sentErr
            simp only [List.filterMap_append, List.filterMap_cons, List.filterMap_nil,
              Event.errSent, Event.errResult, PC.pendingErr, List.append_nil,
              List.append_assoc] at this ⊢
            first | exact this | rw [this] | rw [← this]
          · intro ev hev
            rcases List.mem_append.1 hev with hev | hev
            · exact hl.answers ev hev
            · rw [List.mem_singleton] at hev
              subst hev
              exact trivial
          · have := hl.pacing
            simp only [List.foldl_append, List.foldl_cons, List.foldl_nil, PC.owesPause] at this ⊢
            first | exact this | (rw [this]; rfl)
    | done => simp at hs

theorem inv_step {op : Nat → Int → Except Error ClientInfoResponse}
    {clients : List Client} {workers : Int} {a : Action} {s s2 : State}
    (h : Inv op clients workers s) (hs : step op clients a s = some s2) :
    Inv op clients workers s2 := by
  unfold step at hs
  rw [if_neg (by simp [h.notPanicked])] at hs
  cases a with
  | producer => exact inv_producerStep h hs
  | worker w => exact inv_workerStep h hs
  | closer => exact inv_closerStep h hs
  | caller => exact inv_callerStep h hs

theorem inv_run {op : Nat → Int → Except Error ClientInfoResponse}
    {clients : List Client} {workers : Int} (sched : List Action) :
    ∀ {s s2 : State}, Inv op clients workers s → run op clients sched s = some s2 →
      Inv op clients workers s2 := by
  induction sched with
  | nil =>
    intro s s2 h hr
    simp only [run, Option.some.injEq] at hr
    exact hr ▸ h
  | cons a t ih =>
    intro s s2 h hr
    simp only [run] at hr
    cases hst : step op clients a s with
    | none => simp [hst] at hr
    | some s1 =>
      rw [hst] at hr
      exact ih (inv_step h hst) hr

theorem inv_reachable {op : Nat → Int → Except Error ClientInfoResponse}
    {clients : List Client} {workers : Int} {s : State}
    (h : Reachable op clients workers s) : Inv op clients workers s := by
  obtain ⟨sched, hr⟩ := h
  exact inv_run sched (inv_init op clients workers) hr

theorem run_append {op : Nat → Int → Except Error ClientInfoResponse}
    {clients : List Client} (l1 l2 : List Action) (s : State) :
    run op clients (l1 ++ l2) s = (run op clients l1 s).bind (run op clients l2) := by
  induction l1 generalizing s with
  | nil => rfl
  | cons a t ih =>
    simp only [List.cons_append, run]
    cases step op clients a s with
    | none => rfl
    | some s1 => exact ih s1

theorem stepsLeft_producerStep {clients : List Client} {s s2 : State}
    (hs : producerStep clients s = some s2) : stepsLeft clients s2 < stepsLeft clients s := by
  unfold producerStep at hs
  split_ifs at hs with h1 h2 h3
  · simp only [Option.some.injEq] at hs
    subst hs
    simp only [stepsLeft, List.length_append, List.length_singleton]
    omega
  · simp only [Option.some.injEq] at hs
    subst hs
    simp only [stepsLeft, h1]
    simp

theorem stepsLeft_closerStep {clients : List Client} {s s2 : State}
    (hp : s.panicked = false)
    (hs : closerStep s = some s2) : stepsLeft clients s2 < stepsLeft clients s := by
  unfold closerStep at hs
  cases hc : s.closer with
  | wait =>
    simp only [hc] at hs
    split_ifs at hs with h1
    simp only [Option.some.injEq] at hs
    subst hs
    simp only [stepsLeft, hc, CloserPC.weight]
    omega
  | closeResult =>
    simp only [hc] at hs
    split_ifs at hs with h1
    all_goals
      simp only [Option.some.injEq] at hs
      subst hs
      simp only [stepsLeft, hc, hp, CloserPC.weight]
      simp
  | closeError =>
    simp only [hc] at hs
    split_ifs at hs with h1
    all_goals
      simp only [Option.some.injEq] at hs
      subst hs
      simp only [stepsLeft, hc, hp, CloserPC.weight]
      simp
  | finished => simp [hc] at hs

theorem stepsLeft_callerStep {clients : List Client} {s s2 : State}
    (hs : callerStep s = some s2) : stepsLeft clients s2 < stepsLeft clients s := by
  unfold callerStep at hs
  by_cases h1 : s.returned = true
  · simp [h1] at hs
  rw [if_neg h1] at hs
  split at hs
  · rename_i r rest hc
    simp only [Option.some.injEq] at hs
    subst hs
    simp only [stepsLeft, hc, List.length_cons]
    omega
  · rename_i hc
    split_ifs at hs with h2
    simp only [Option.some.injEq] at hs
    subst hs
    simp only [stepsLeft, h1]
    simp

theorem stepsLeft_workerStep {op : Nat → Int → Except Error ClientInfoResponse}
    {clients : List Client} {w : Nat} {s s2 : State} (hp : s.panicked = false)
    (hs : workerStep op clients w s = some s2) :
    stepsLeft clients s2 < stepsLeft clients s := by
  unfold workerStep at hs
  cases hw : s.workers[w]? with
  | none => simp [hw] at hs
  | some wk =>
    simp only [hw] at hs
    obtain ⟨pre, post, hsplit, hset⟩ := split_at_worker hw
    obtain ⟨pc, tr⟩ := wk
    cases pc with
    | recv =>
      simp only at hs
      split at hs
      · rename_i c rest hc
        simp only [Option.some.injEq] at hs
        subst hs
        simp only [stepsLeft, hset, hc, List.length_cons]
        rw [hsplit]
        simp only [wsum_append, wsum_cons, PC.weight]
        omega
      · rename_i hc
        split_ifs at hs with h1 h2
        · simp only [Option.some.injEq] at hs
          subst hs
          simp only [stepsLeft, hp]
          simp
        · simp only [Option.some.injEq] at hs
          subst hs
          simp only [stepsLeft, hset]
          rw [hsplit]
          simp only [wsum_append, wsum_cons, PC.weight]
          omega
    | call c =>
      simp only at hs
      split at hs
      all_goals
        simp only [Option.some.injEq] at hs
        subst hs
        simp only [stepsLeft, hset]
        rw [hsplit]
        simp only [wsum_append, wsum_cons, PC.weight]
        omega
    | sendErr e =>
      simp only at hs
      split_ifs at hs with h1 h2
      · simp only [Option.some.injEq] at hs
        subst hs
        simp only [stepsLeft, hp]
        simp
      · simp only [Option.some.injEq] at hs
        subst hs
        simp only [stepsLeft, hset]
        rw [hsplit]
        simp only [wsum_append, wsum_cons, PC.weight]
        omega
    | sendRes r =>
      simp only at hs
      split_ifs at hs with h1 h2
      · simp only [Option.some.injEq] at hs
        subst hs
        simp only [stepsLeft, hp]
        simp
      · simp only [Option.some.injEq] at hs
        subst hs
        simp only [stepsLeft, hset, List.length_append, List.length_singleton]
        rw [hsplit]
        simp only [wsum_append, wsum_cons, PC.weight]
        omega
    | sleep =>
      simp only [Option.some.injEq] at hs
      subst hs
      simp only [stepsLeft, hset]
      rw [hsplit]
      simp only [wsum_append, wsum_cons, PC.weight]
      omega
    | done => simp at hs

theorem stepsLeft_step {op : Nat → Int → Except Error ClientInfoResponse}
    {clients : List Client} {a : Action} {s s2 : State}
    (hs : step op clients a s = some s2) : stepsLeft clients s2 < stepsLeft clients s := by
  unfold step at hs
  by_cases hp : s.panicked = true
  · simp [hp] at hs
  rw [if_neg hp] at hs
  have hp2 : s.panicked = false := by simpa using hp
  cases a with
  | producer => exact stepsLeft_producerStep hs
  | worker w => exact stepsLeft_workerStep hp2 hs
  | closer => exact stepsLeft_closerStep hp2 hs
  | caller => exact stepsLeft_callerStep hs

theorem run_length_le {op : Nat → Int → Except Error ClientInfoResponse}
    {clients : List Client} (sched : List Action) :
    ∀ {s s2 : State}, run op clients sched s = some s2 →
      sched.length + stepsLeft clients s2 ≤ stepsLeft clients s := by
  induction sched with
  | nil =>
    intro s s2 hr
    simp only [run, Option.some.injEq] at hr
    subst hr
    simp
  | cons a t ih =>
    intro s s2 hr
    simp only [run] at hr
    cases hst : step op clients a s with
    | none => simp [hst] at hr
    | some s1 =>
      rw [hst] at hr
      have h1 := ih hr
      have h2 := stepsLeft_step hst
      simp only [List.length_cons]
      omega

theorem all_done_of_wg {op : Nat → Int → Except Error ClientInfoResponse}
    {clients : List Client} {workers : Int} {s : State}
    (h : Inv op clients workers s) (hwg : s.wg = 0) :
    ∀ wk ∈ s.workers, wk.pc = .done := by
  intro wk hwk
  have := le_wsum (fun wk => wk.pc.alive) hwk
  rw [h.wg_eq, hwg] at this
  cases hpc : wk.pc <;> simp [hpc, PC.alive] at this ⊢

theorem exists_alive {op : Nat → Int → Except Error ClientInfoResponse}
    {clients : List Client} {workers : Int} {s : State}
    (h : Inv op clients workers s) (hwg : s.wg ≠ 0) :
    ∃ (w : Nat) (wk : Worker Client ClientInfoResponse),
      s.workers[w]? = some wk ∧ wk.pc ≠ .done := by
  by_contra hcon
  push_neg at hcon
  apply hwg
  rw [← h.wg_eq]
  apply wsum_eq_zero
  intro wk hwk
  obtain ⟨w, hw⟩ := List.getElem?_of_mem hwk
  have := hcon w wk hw
  simp [this, PC.alive]

/-- Deadlock freedom: while the caller has not returned, some goroutine can move. -/
theorem progress {op : Nat → Int → Except Error ClientInfoResponse}
    {clients : List Client} {workers : Int} {s : State}
    (h : Inv op clients workers s) (hret : s.returned = false) :
    ∃ a, (step op clients a s).isSome = true := by
  have hp := h.notPanicked
  by_cases hcl : s.clientClosed = true
  swap
  · refine ⟨.producer, ?_⟩
    have hcount := h.count
    have hle := h.next_le
    simp only [step, hp, producerStep, hcl]
    by_cases hn : s.next < clients.length
    · have : s.clientChan.length < clients.length := by omega
      simp [hn, this]
    · simp [hn]
  by_cases hwg : s.wg = 0
  swap
  · obtain ⟨w, wk, hw, hpc⟩ := exists_alive h hwg
    refine ⟨.worker w, ?_⟩
    have hmem := mem_of_getElem?_eq_some hw
    have hin := le_wsum (fun wk => wk.pc.inflight) hmem
    have hcount := h.count
    have hle := h.next_le
    simp only [step, hp, workerStep, hw]
    obtain ⟨pc, tr⟩ := wk
    cases pc with
    | recv =>
      cases hc : s.clientChan with
      | nil => simp [hcl, hwg]
      | cons c rest => simp
    | call c =>
      cases hop : op s.calls c.Id <;> simp [hop]
    | sendErr e =>
      have hin1 : 1 ≤ wsum (fun wk => wk.pc.inflight) s.workers := hin
      have : s.errorChan.length < clients.length := by omega
      by_cases he : s.errorClosed = true <;> simp [he, this]
    | sendRes r =>
      have hin1 : 1 ≤ wsum (fun wk => wk.pc.inflight) s.workers := hin
      have : s.resultChan.length < clients.length := by omega
      by_cases he : s.resultClosed = true <;> simp [he, this]
    | sleep => simp
    | done => exact absurd rfl hpc
  by_cases hfin : s.closer = .finished
  swap
  · refine ⟨.closer, ?_⟩
    simp only [step, hp, closerStep]
    cases hc : s.closer with
    | wait => simp [hwg]
    | closeResult => by_cases he : s.resultClosed = true <;> simp [he]
    | closeError => by_cases he : s.errorClosed = true <;> simp [he]
    | finished => exact absurd hc hfin
  refine ⟨.caller, ?_⟩
  have hrc : s.resultClosed = true := h.resultClosed_iff.2 (Or.inr hfin)
  simp only [step, hp, callerStep, hret]
  cases hc : s.resultChan with
  | nil => simp [hrc]
  | cons r rest => simp

/-- From every state that satisfies the invariant the caller can be brought to
return, and it does return on every way of scheduling to the end. -/
theorem exists_run_returned {op : Nat → Int → Except Error ClientInfoResponse}
    {clients : List Client} {workers : Int} :
    ∀ (n : Nat) (s : State), stepsLeft clients s ≤ n → Inv op clients workers s →
      ∃ sched s2, run op clients sched s = some s2 ∧ s2.returned = true := by
  intro n
  induction n with
  | zero =>
    intro s hn h
    have hp := h.notPanicked
    simp only [stepsLeft, hp] at hn
    simp at hn
  | succ n ih =>
    intro s hn h
    by_cases hret : s.returned = true
    · exact ⟨[], s, rfl, hret⟩
    · have hret2 : s.returned = false := by simpa using hret
      obtain ⟨a, ha⟩ := progress h hret2
      obtain ⟨s1, hs1⟩ := Option.isSome_iff_exists.1 ha
      have hdec := stepsLeft_step hs1
      obtain ⟨sched, s2, hr, hfin⟩ := ih s1 (by omega) (inv_step h hs1)
      refine ⟨a :: sched, s2, ?_, hfin⟩
      simp only [run, hs1, Option.some_bind]
      exact hr

end GetClientInfoBatch

namespace MassMalling

/-! ### MassMalling: the invariant is preserved by every move -/

theorem mass_inv_init (op : Nat → String → String → Option Error) (users : List ClientInfoResponse)
    (message : String) (workers : Int) (start_index : Int) :
    Inv op users message workers start_index (init workers start_index) where
  panic_imp := by simp [init]
  i_ge := by simp [init]
  advanced := by simp [init]
  closed_i := by simp [init]
  items := by simp [init, wsum_replicate]
  count := by simp [init, wsum_replicate, PC.inflight]
  errors := by simp [init, wsum_replicate]
  wg_eq := by simp [init, wsum_alive_replicate, PC.alive]
  closer_wg := by simp [init]
  errorClosed_iff := by simp [init]
  returned_imp := by simp [init]
  done_imp := by
    intro wk hwk hpc
    simp [init] at hwk
    rw [hwk.2] at hpc
    cases hpc
  size := by simp [init]
  wlocal := by
    intro wk hwk
    simp [init] at hwk
    rw [hwk.2]
    exact ⟨rfl, rfl, by simp, by simp, rfl⟩

theorem pendingItems_cons {users : List ClientInfoResponse} {i : Int} {u : ClientInfoResponse}
    (h0 : ¬ i < 0) (hu : users[i.toNat]? = some u) :
    pendingItems users i = u :: pendingItems users (i + 1) := by
  have h1 : ¬ i + 1 < 0 := by omega
  rw [List.getElem?_eq_some] at hu
  obtain ⟨hlt, rfl⟩ := hu
  simp only [pendingItems, h0, h1, if_false]
  have : (i + 1).toNat = i.toNat + 1 := by omega
  rw [this]
  exact List.drop_eq_getElem_cons hlt

theorem mass_inv_producerStep {op : Nat → String → String → Option Error}
    {users : List ClientInfoResponse} {message : String} {workers start_index : Int}
    {s s2 : State}
    (h : Inv op users message workers start_index s) (hs : producerStep users s = some s2) :
    Inv op users message workers start_index s2 := by
  unfold producerStep at hs
  by_cases h1 : s.userClosed = true
  · simp [h1] at hs
  rw [if_neg h1] at hs
  by_cases h2 : s.i < users.length
  swap
  · rw [if_neg h2] at hs
    simp only [Option.some.injEq] at hs
    subst hs
    constructor
    all_goals first
      | exact h.panic_imp | exact h.i_ge | exact h.advanced | exact h.items | exact h.count
      | exact h.errors | exact h.wg_eq
      | exact h.closer_wg | exact h.errorClosed_iff
      | exact h.returned_imp | exact h.size | exact h.wlocal | skip
    · intro _
      dsimp only
      omega
    · intro wk hwk hpc
      exact absurd (h.done_imp wk hwk hpc).1 h1
  rw [if_pos h2] at hs
  by_cases h3 : s.i < 0
  · rw [if_pos h3] at hs
    simp only [Option.some.injEq] at hs
    subst hs
    constructor
    all_goals first
      | exact h.i_ge | exact h.advanced | exact h.closed_i | exact h.items | exact h.count
      | exact h.errors | exact h.wg_eq
      | exact h.closer_wg | exact h.errorClosed_iff | exact h.done_imp
      | exact h.returned_imp | exact h.size | exact h.wlocal | skip
    · intro _
      have := h.i_ge
      omega
  rw [if_neg h3] at hs
  have hlt : s.i.toNat < users.length := by omega
  have hget : users[s.i.toNat]? = some users[s.i.toNat] := List.getElem?_eq_getElem hlt
  rw [hget] at hs
  simp only at hs
  split_ifs at hs with h4
  simp only [Option.some.injEq] at hs
  subst hs
  constructor
  all_goals first
    | exact h.panic_imp | exact h.errors | exact h.wg_eq
    | exact h.closer_wg | exact h.errorClosed_iff
    | exact h.returned_imp | exact h.size | exact h.wlocal | skip
  · dsimp only
    have := h.i_ge
    omega
  · intro _
    dsimp only
    have := h.advanced
    have := h.i_ge
    omega
  · intro hc
    exact absurd hc h1
  · dsimp only
    have hi := h.items
    rw [pendingItems_cons h3 hget, coe_cons_add] at hi
    rw [coe_snoc, ← hi]
    abel
  · dsimp only
    have hc := h.count
    have := h.i_ge
    simp only [List.length_append, List.length_singleton]
    omega
  · intro wk hwk hpc
    exact absurd (h.done_imp wk hwk hpc).1 h1

theorem mass_inv_closerStep {op : Nat → String → String → Option Error}
    {users : List ClientInfoResponse} {message : String} {workers start_index : Int}
    {s s2 : State}
    (h : Inv op users message workers start_index s) (hs : closerStep s = some s2) :
    Inv op users message workers start_index s2 := by
  unfold closerStep at hs
  cases hc : s.closer with
  | wait =>
    simp only [hc] at hs
    split_ifs at hs with h1
    simp only [Option.some.injEq] at hs
    subst hs
    constructor
    all_goals first
      | exact h.panic_imp | exact h.i_ge | exact h.advanced | exact h.closed_i | exact h.items
      | exact h.count | exact h.errors | exact h.wg_eq
      | exact h.returned_imp | exact h.done_imp | exact h.size | exact h.wlocal | skip
    · intro _
      exact h1
    · have := h.errorClosed_iff
      simp only [hc] at this
      simpa using this
  | closeError =>
    simp only [hc] at hs
    have hr : ¬ s.errorClosed = true := by
      rw [h.errorClosed_iff, hc]
      simp
    rw [if_neg hr] at hs
    simp only [Option.some.injEq] at hs
    subst hs
    constructor
    all_goals first
      | exact h.panic_imp | exact h.i_ge | exact h.advanced | exact h.closed_i | exact h.items
      | exact h.count | exact h.errors | exact h.wg_eq
      | exact h.done_imp | exact h.size | exact h.wlocal | skip
    · intro _
      exact h.closer_wg (by rw [hc]; simp)
    · simp
    · intro hret
      exact absurd (h.returned_imp hret).1 hr
  | finished => simp [hc] at hs

theorem mass_inv_callerStep {op : Nat → String → String → Option Error}
    {users : List ClientInfoResponse} {message : String} {workers start_index : Int}
    {s s2 : State}
    (h : Inv op users message workers start_index s) (hs : callerStep s = some s2) :
    Inv op users message workers start_index s2 := by
  unfold callerStep at hs
  by_cases h1 : s.returned = true
  · simp [h1] at hs
  rw [if_neg h1] at hs
  split at hs
  · rename_i r rest hc
    simp only [Option.some.injEq] at hs
    subst hs
    constructor
    all_goals first
      | exact h.panic_imp | exact h.i_ge | exact h.advanced | exact h.closed_i | exact h.items
      | exact h.wg_eq | exact h.closer_wg | exact h.errorClosed_iff
      | exact h.done_imp | exact h.size | exact h.wlocal | skip
    · dsimp only
      have := h.count
      rw [hc] at this
      simp only [List.length_cons, List.length_append, List.length_singleton,
        List.length_nil] at this ⊢
      omega
    · dsimp only
      have := h.errors
      rw [hc, coe_cons_add] at this
      rw [this, coe_snoc]
      abel
    · intro hret
      exact absurd hret h1
  · rename_i hc
    by_cases h2 : s.errorClosed = true
    swap
    · simp [h2] at hs
    rw [if_pos h2] at hs
    simp only [Option.some.injEq] at hs
    subst hs
    constructor
    all_goals first
      | exact h.panic_imp | exact h.i_ge | exact h.advanced | exact h.closed_i | exact h.items
      | exact h.count | exact h.errors | exact h.wg_eq
      | exact h.closer_wg | exact h.errorClosed_iff
      | exact h.done_imp | exact h.size | exact h.wlocal | skip
    · intro _
      exact ⟨h2, hc⟩

theorem mass_inv_workerStep {op : Nat → String → String → Option Error}
    {users : List ClientInfoResponse} {message : String} {workers start_index : Int}
    {w : Nat} {s s2 : State}
    (h : Inv op users message workers start_index s)
    (hs : workerStep op users message w s = some s2) :
    Inv op users message workers start_index s2 := by
  unfold workerStep at hs
  cases hw : s.workers[w]? with
  | none => simp [hw] at hs
  | some wk =>
    simp only [hw] at hs
    have hmem := mem_of_getElem?_eq_some hw
    have hl := h.wlocal wk hmem
    have halive := le_wsum (fun wk => wk.pc.alive) hmem
    rw [h.wg_eq] at halive
    obtain ⟨pre, post, hsplit, hset⟩ := split_at_worker hw
    obtain ⟨pc, tr⟩ := wk
    cases pc with
    | recv =>
      simp only at hs
      split at hs
      · rename_i c rest hc
        simp only [Option.some.injEq] at hs
        subst hs
        constructor
        all_goals first
          | exact h.panic_imp | exact h.i_ge | exact h.advanced | exact h.closed_i | exact h.closer_wg | exact h.errorClosed_iff | exact h.returned_imp
          | (dsimp only
             have hf := h.items
             rw [hsplit] at hf
             try rw [hc] at hf
             rw [hset]
             simp only [wsum_append, wsum_cons, List.filterMap_append, List.filterMap_cons, List.filterMap_nil,
            Event.claimed, Event.called, Event.resSent, Event.errSent, PC.inflight, PC.alive,
            coe_snoc, coe_cons_add, List.length_cons, List.length_append, List.length_nil,
            List.append_nil, add_zero, zero_add] at hf ⊢
             first | exact hf | (rw [← hf]; abel))
          | (dsimp only
             have hf := h.count
             rw [hsplit] at hf
             try rw [hc] at hf
             rw [hset]
             simp only [wsum_append, wsum_cons, List.filterMap_append, List.filterMap_cons, List.filterMap_nil,
            Event.claimed, Event.called, Event.resSent, Event.errSent, PC.inflight, PC.alive,
            coe_snoc, coe_cons_add, List.length_cons, List.length_append, List.length_nil,
            List.append_nil, add_zero, zero_add] at hf ⊢
             omega)
          | (dsimp only
             have hf := h.errors
             rw [hsplit] at hf
             try rw [hc] at hf
             rw [hset]
             simp only [wsum_append, wsum_cons, List.filterMap_append, List.filterMap_cons, List.filterMap_nil,
            Event.claimed, Event.called, Event.resSent, Event.errSent, PC.inflight, PC.alive,
            coe_snoc, coe_cons_add, List.length_cons, List.length_append, List.length_nil,
            List.append_nil, add_zero, zero_add] at hf ⊢
             first | exact hf | (rw [← hf]; abel))
          | (dsimp only
             have hf := h.wg_eq
             rw [hsplit] at hf
             try rw [hc] at hf
             rw [hset]
             simp only [wsum_append, wsum_cons, List.filterMap_append, List.filterMap_cons, List.filterMap_nil,
            Event.claimed, Event.called, Event.resSent, Event.errSent, PC.inflight, PC.alive,
            coe_snoc, coe_cons_add, List.length_cons, List.length_append, List.length_nil,
            List.append_nil, add_zero, zero_add] at hf ⊢
             omega)
          | (dsimp only
             rw [List.length_set]
             exact h.size)
          | skip
        · intro wk hwk hpc
          rcases List.mem_or_eq_of_mem_set hwk with hwk | rfl
          · have := (h.done_imp wk hwk hpc).2
            rw [hc] at this
            cases this
          · cases hpc
        · refine forall_mem_set h.wlocal ⟨?_, ?_, ?_, ?_, ?_⟩
          · have := hl.called
            simp only [List.filterMap_append, List.filterMap_cons, List.filterMap_nil,
              Event.claimed, Event.called, PC.holding, List.append_nil, List.append_assoc] at this ⊢
            first | exact this | rw [this] | rw [← this]
          · have := hl.sentErr
            simp only [List.filterMap_append, List.filterMap_cons, List.filterMap_nil,
              Event.errSent, Event.errResult, PC.pendingErr, List.append_nil,
              List.append_assoc] at this ⊢
            first | exact this | rw [this] | rw [← this]
          · intro ev hev
            rcases List.mem_append.1 hev with hev | hev
            · exact hl.answers ev hev
            · rw [List.mem_singleton] at hev
              subst hev
              exact trivial
          · have := hl.noPause
            simp only [List.mem_append, List.mem_singleton, not_or]
            exact ⟨this, by simp⟩
          · rfl
      · rename_i hc
        by_cases hcl : s.userClosed = true
        swap
        · simp [hcl] at hs
        rw [if_pos hcl] at hs
        have hwg : ¬ s.wg = 0 := by
          simp only [PC.alive] at halive
          omega
        rw [if_neg hwg] at hs
        simp only [Option.some.injEq] at hs
        subst hs
        constructor
        all_goals first
          | exact h.panic_imp | exact h.i_ge | exact h.advanced | exact h.closed_i | exact h.errorClosed_iff | exact h.returned_imp
          | (dsimp only
             have hf := h.items
             rw [hsplit] at hf
             rw [hset]
             simp only [wsum_append, wsum_cons, List.filterMap_append, List.filterMap_cons, List.filterMap_nil,
            Event.claimed, Event.called, Event.resSent, Event.errSent, PC.inflight, PC.alive,
            coe_snoc, coe_cons_add, List.length_cons, List.length_append, List.length_nil,
            List.append_nil, add_zero, zero_add] at hf ⊢
             first | exact hf | (rw [← hf]; abel))
          | (dsimp only
             have hf := h.count
             rw [hsplit] at hf
             rw [hset]
             simp only [wsum_append, wsum_cons, List.filterMap_append, List.filterMap_cons, List.filterMap_nil,
            Event.claimed, Event.called, Event.resSent, Event.errSent, PC.inflight, PC.alive,
            coe_snoc, coe_cons_add, List.length_cons, List.length_append, List.length_nil,
            List.append_nil, add_zero, zero_add] at hf ⊢
             omega)
          | (dsimp only
             have hf := h.errors
             rw [hsplit] at hf
             rw [hset]
             simp only [wsum_append, wsum_cons, List.filterMap_append, List.filterMap_cons, List.filterMap_nil,
            Event.claimed, Event.called, Event.resSent, Event.errSent, PC.inflight, PC.alive,
            coe_snoc, coe_cons_add, List.length_cons, List.length_append, List.length_nil,
            List.append_nil, add_zero, zero_add] at hf ⊢
             first | exact hf | (rw [← hf]; abel))
          | (dsimp only
             have hf := h.wg_eq
             rw [hsplit] at hf
             rw [hset]
             simp only [wsum_append, wsum_cons, List.filterMap_append, List.filterMap_cons, List.filterMap_nil,
            Event.claimed, Event.called, Event.resSent, Event.errSent, PC.inflight, PC.alive,
            coe_snoc, coe_cons_add, List.length_cons, List.length_append, List.length_nil,
            List.append_nil, add_zero, zero_add] at hf ⊢
             omega)
          | (dsimp only
             rw [List.length_set]
             exact h.size)
          | skip
        · intro hne
          exact absurd (h.closer_wg hne) hwg
        · intro wk hwk hpc
          exact ⟨hcl, hc⟩
        · refine forall_mem_set h.wlocal ⟨?_, ?_, ?_, ?_, ?_⟩
          · exact hl.called
          · exact hl.sentErr
          · exact hl.answers
          · exact hl.noPause
          · rfl
    | call c =>
      simp only at hs
      split at hs
      · rename_i e hop
        simp only [Option.some.injEq] at hs
        subst hs
        constructor
        all_goals first
          | exact h.panic_imp | exact h.i_ge | exact h.advanced | exact h.closed_i | exact h.closer_wg | exact h.errorClosed_iff | exact h.returned_imp
          | (dsimp only
             have hf := h.items
             rw [hsplit] at hf
             rw [hset]
             simp only [wsum_append, wsum_cons, List.filterMap_append, List.filterMap_cons, List.filterMap_nil,
            Event.claimed, Event.called, Event.resSent, Event.errSent, PC.inflight, PC.alive,
            coe_snoc, coe_cons_add, List.length_cons, List.length_append, List.length_nil,
            List.append_nil, add_zero, zero_add] at hf ⊢
             first | exact hf | (rw [← hf]; abel))
          | (dsimp only
             have hf := h.count
             rw [hsplit] at hf
             rw [hset]
             simp only [wsum_append, wsum_cons, List.filterMap_append, List.filterMap_cons, List.filterMap_nil,
            Event.claimed, Event.called, Event.resSent, Event.errSent, PC.inflight, PC.alive,
            coe_snoc, coe_cons_add, List.length_cons, List.length_append, List.length_nil,
            List.append_nil, add_zero, zero_add] at hf ⊢
             omega)
          | (dsimp only
             have hf := h.errors
             rw [hsplit] at hf
             rw [hset]
             simp only [wsum_append, wsum_cons, List.filterMap_append, List.filterMap_cons, List.filterMap_nil,
            Event.claimed, Event.called, Event.resSent, Event.errSent, PC.inflight, PC.alive,
            coe_snoc, coe_cons_add, List.length_cons, List.length_append, List.length_nil,
            List.append_nil, add_zero, zero_add] at hf ⊢
             first | exact hf | (rw [← hf]; abel))
          | (dsimp only
             have hf := h.wg_eq
             rw [hsplit] at hf
             rw [hset]
             simp only [wsum_append, wsum_cons, List.filterMap_append, List.filterMap_cons, List.filterMap_nil,
            Event.claimed, Event.called, Event.resSent, Event.errSent, PC.inflight, PC.alive,
            coe_snoc, coe_cons_add, List.length_cons, List.length_append, List.length_nil,
            List.append_nil, add_zero, zero_add] at hf ⊢
             omega)
          | (dsimp only
             rw [List.length_set]
             exact h.size)
          | skip
        · intro wk hwk hpc
          rcases List.mem_or_eq_of_mem_set hwk with hwk | rfl
          · exact h.done_imp wk hwk hpc
          · cases hpc
        · refine forall_mem_set h.wlocal ⟨?_, ?_, ?_, ?_, ?_⟩
          · have := hl.called
            simp only [List.filterMap_append, List.filterMap_cons, List.filterMap_nil,
              Event.claimed, Event.called, PC.holding, List.append_nil, List.append_assoc] at this ⊢
            first | exact this | rw [this] | rw [← this]
          · have := hl.sentErr
            simp only [List.filterMap_append, List.filterMap_cons, List.filterMap_nil,
              Event.errSent, Event.errResult, PC.pendingErr, List.append_nil,
              List.append_assoc] at this ⊢
            first | exact this | rw [this] | rw [← this]
          · intro ev hev
            rcases List.mem_append.1 hev with hev | hev
            · exact hl.answers ev hev
            · rw [List.mem_singleton] at hev
              subst hev
              exact ⟨s.calls, by simp [remoteCall, hop]⟩
          · have := hl.noPause
            simp only [List.mem_append, List.mem_singleton, not_or]
            exact ⟨this, by simp⟩
          · rfl
      · rename_i hop
        simp only [Option.some.injEq] at hs
        subst hs
        constructor
        all_goals first
          | exact h.panic_imp | exact h.i_ge | exact h.advanced | exact h.closed_i | exact h.closer_wg | exact h.errorClosed_iff | exact h.returned_imp
          | (dsimp only
             have hf := h.items
             rw [hsplit] at hf
             rw [hset]
             simp only [wsum_append, wsum_cons, List.filterMap_append, List.filterMap_cons, List.filterMap_nil,
            Event.claimed, Event.called, Event.resSent, Event.errSent, PC.inflight, PC.alive,
            coe_snoc, coe_cons_add, List.length_cons, List.length_append, List.length_nil,
            List.append_nil, add_zero, zero_add] at hf ⊢
             first | exact hf | (rw [← hf]; abel))
          | (dsimp only
             have hf := h.count
             rw [hsplit] at hf
             rw [hset]
             simp only [wsum_append, wsum_cons, List.filterMap_append, List.filterMap_cons, List.filterMap_nil,
            Event.claimed, Event.called, Event.resSent, Event.errSent, PC.inflight, PC.alive,
            coe_snoc, coe_cons_add, List.length_cons, List.length_append, List.length_nil,
            List.append_nil, add_zero, zero_add] at hf ⊢
             omega)
          | (dsimp only
             have hf := h.errors
             rw [hsplit] at hf
             rw [hset]
             simp only [wsum_append, wsum_cons, List.filterMap_append, List.filterMap_cons, List.filterMap_nil,
            Event.claimed, Event.called, Event.resSent, Event.errSent, PC.inflight, PC.alive,
            coe_snoc, coe_cons_add, List.length_cons, List.length_append, List.length_nil,
            List.append_nil, add_zero, zero_add] at hf ⊢
             first | exact hf | (rw [← hf]; abel))
          | (dsimp only
             have hf := h.wg_eq
             rw [hsplit] at hf
             rw [hset]
             simp only [wsum_append, wsum_cons, List.filterMap_append, List.filterMap_cons, List.filterMap_nil,
            Event.claimed, Event.called, Event.resSent, Event.errSent, PC.inflight, PC.alive,
            coe_snoc, coe_cons_add, List.length_cons, List.length_append, List.length_nil,
            List.append_nil, add_zero, zero_add] at hf ⊢
             omega)
          | (dsimp only
             rw [List.length_set]
             exact h.size)
          | skip
        · intro wk hwk hpc
          rcases List.mem_or_eq_of_mem_set hwk with hwk | rfl
          · exact h.done_imp wk hwk hpc
          · cases hpc
        · refine forall_mem_set h.wlocal ⟨?_, ?_, ?_, ?_, ?_⟩
          · have := hl.called
            simp only [List.filterMap_append, List.filterMap_cons, List.filterMap_nil,
              Event.claimed, Event.called, PC.holding, List.append_nil, List.append_assoc] at this ⊢
            first | exact this | rw [this] | rw [← this]
          · have := hl.sentErr
            simp only [List.filterMap_append, List.filterMap_cons, List.filterMap_nil,
              Event.errSent, Event.errResult, PC.pendingErr, List.append_nil,
              List.append_assoc] at this ⊢
            first | exact this | rw [this] | rw [← this]
          · intro ev hev
            rcases List.mem_append.1 hev with hev | hev
            · exact hl.answers ev hev
            · rw [List.mem_singleton] at hev
              subst hev
              exact ⟨s.calls, by simp [remoteCall, hop]⟩
          · have := hl.noPause
            simp only [List.mem_append, List.mem_singleton, not_or]
            exact ⟨this, by simp⟩
          · rfl
    | sendErr e =>
      simp only at hs
      have hopen : ¬ s.errorClosed = true := by
        intro hcl
        have := h.closer_wg (by rw [(h.errorClosed_iff).1 hcl]; simp)
        simp only [PC.alive] at halive
        omega
      rw [if_neg hopen] at hs
      split_ifs at hs with hcap
      · simp only [Option.some.injEq] at hs
        subst hs
        constructor
        all_goals first
          | exact h.panic_imp | exact h.i_ge | exact h.advanced | exact h.closed_i | exact h.closer_wg | exact h.errorClosed_iff
          | (dsimp only
             have hf := h.items
             rw [hsplit] at hf
             rw [hset]
             simp only [wsum_append, wsum_cons, List.filterMap_append, List.filterMap_cons, List.filterMap_nil,
            Event.claimed, Event.called, Event.resSent, Event.errSent, PC.inflight, PC.alive,
            coe_snoc, coe_cons_add, List.length_cons, List.length_append, List.length_nil,
            List.append_nil, add_zero, zero_add] at hf ⊢
             first | exact hf | (rw [← hf]; abel))
          | (dsimp only
             have hf := h.count
             rw [hsplit] at hf
             rw [hset]
             simp only [wsum_append, wsum_cons, List.filterMap_append, List.filterMap_cons, List.filterMap_nil,
            Event.claimed, Event.called, Event.resSent, Event.errSent, PC.inflight, PC.alive,
            coe_snoc, coe_cons_add, List.length_cons, List.length_append, List.length_nil,
            List.append_nil, add_zero, zero_add] at hf ⊢
             omega)
          | (dsimp only
             have hf := h.errors
             rw [hsplit] at hf
             rw [hset]
             simp only [wsum_append, wsum_cons, List.filterMap_append, List.filterMap_cons, List.filterMap_nil,
            Event.claimed, Event.called, Event.resSent, Event.errSent, PC.inflight, PC.alive,
            coe_snoc, coe_cons_add, List.length_cons, List.length_append, List.length_nil,
            List.append_nil, add_zero, zero_add] at hf ⊢
             first | exact hf | (rw [← hf]; abel))
          | (dsimp only
             have hf := h.wg_eq
             rw [hsplit] at hf
             rw [hset]
             simp only [wsum_append, wsum_cons, List.filterMap_append, List.filterMap_cons, List.filterMap_nil,
            Event.claimed, Event.called, Event.resSent, Event.errSent, PC.inflight, PC.alive,
            coe_snoc, coe_cons_add, List.length_cons, List.length_append, List.length_nil,
            List.append_nil, add_zero, zero_add] at hf ⊢
             omega)
          | (dsimp only
             rw [List.length_set]
             exact h.size)
          | skip
        · dsimp only
          have hf := h.errors
          rw [hsplit] at hf
          rw [hset]
          simp only [wsum_append, wsum_cons, List.filterMap_append, List.filterMap_cons,
            List.filterMap_nil, Event.errSent, coe_snoc] at hf ⊢
          rw [← add_assoc (s.logged : Multiset Error), ← hf]
          abel
        · intro hret
          exact absurd (h.returned_imp hret).1 hopen
        · intro wk hwk hpc
          rcases List.mem_or_eq_of_mem_set hwk with hwk | rfl
          · exact h.done_imp wk hwk hpc
          · cases hpc
        · refine forall_mem_set h.wlocal ⟨?_, ?_, ?_, ?_, ?_⟩
          · have := hl.called
            simp only [List.filterMap_append, List.filterMap_cons, List.filterMap_nil,
              Event.claimed, Event.called, PC.holding, List.append_nil, List.append_assoc] at this ⊢
            first | exact this | rw [this] | rw [← this]
          · have := hl.sentErr
            simp only [List.filterMap_append, List.filterMap_cons, List.filterMap_nil,
              Event.errSent, Event.errResult, PC.pendingErr, List.append_nil,
              List.append_assoc] at this ⊢
            first | exact this | rw [this] | rw [← this]
          · intro ev hev
            rcases List.mem_append.1 hev with hev | hev
            · exact hl.answers ev hev
            · rw [List.mem_singleton] at hev
              subst hev
              exact trivial
          · have := hl.noPause
            simp only [List.mem_append, List.mem_singleton, not_or]
            exact ⟨this, by simp⟩
          · rfl
    | sendRes r => simp at hs
    | sleep => simp at hs
    | done => simp at hs

theorem mass_inv_step {op : Nat → String → String → Option Error}
    {users : List ClientInfoResponse} {message : String} {workers start_index : Int}
    {a : Action} {s s2 : State}
    (h : Inv op users message workers start_index s)
    (hs : step op users message a s = some s2) :
    Inv op users message workers start_index s2 := by
  unfold step at hs
  by_cases hp : s.panicked = true
  · simp [hp] at hs
  rw [if_neg hp] at hs
  cases a with
  | producer => exact mass_inv_producerStep h hs
  | worker w => exact mass_inv_workerStep h hs
  | closer => exact mass_inv_closerStep h hs
  | caller => exact mass_inv_callerStep h hs

theorem mass_inv_run {op : Nat → String → String → Option Error}
    {users : List ClientInfoResponse} {message : String} {workers start_index : Int}
    (sched : List Action) :
    ∀ {s s2 : State}, Inv op users message workers start_index s →
      run op users message sched s = some s2 →
      Inv op users message workers start_index s2 := by
  induction sched with
  | nil =>
    intro s s2 h hr
    simp only [run, Option.some.injEq] at hr
    exact hr ▸ h
  | cons a t ih =>
    intro s s2 h hr
    simp only [run] at hr
    cases hst : step op users message a s with
    | none => simp [hst] at hr
    | some s1 =>
      rw [hst] at hr
      exact ih (mass_inv_step h hst) hr

theorem mass_inv_reachable {op : Nat → String → String → Option Error}
    {users : List ClientInfoResponse} {message : String} {workers start_index : Int}
    {s : State} (h : Reachable op users message workers start_index s) :
    Inv op users message workers start_index s := by
  obtain ⟨sched, hr⟩ := h
  exact mass_inv_run sched (mass_inv_init op users message workers start_index) hr

theorem mass_stepsLeft_producerStep {users : List ClientInfoResponse} {s s2 : State}
    (hp : s.panicked = false)
    (hs : producerStep users s = some s2) : stepsLeft users s2 < stepsLeft users s := by
  unfold producerStep at hs
  by_cases h1 : s.userClosed = true
  · simp [h1] at hs
  rw [if_neg h1] at hs
  by_cases h2 : s.i < users.length
  swap
  · rw [if_neg h2] at hs
    simp only [Option.some.injEq] at hs
    subst hs
    simp only [stepsLeft, h1]
    simp
  rw [if_pos h2] at hs
  by_cases h3 : s.i < 0
  · rw [if_pos h3] at hs
    simp only [Option.some.injEq] at hs
    subst hs
    simp only [stepsLeft, hp]
    simp
  rw [if_neg h3] at hs
  split at hs
  · simp only [Option.some.injEq] at hs
    subst hs
    simp only [stepsLeft, hp]
    simp
  · split_ifs at hs with h4
    simp only [Option.some.injEq] at hs
    subst hs
    simp only [stepsLeft, List.length_append, List.length_singleton]
    have : ((users.length : Int) - s.i).toNat = ((users.length : Int) - (s.i + 1)).toNat + 1 := by
      omega
    omega

theorem mass_stepsLeft_closerStep {users : List ClientInfoResponse} {s s2 : State}
    (hp : s.panicked = false)
    (hs : closerStep s = some s2) : stepsLeft users s2 < stepsLeft users s := by
  unfold closerStep at hs
  cases hc : s.closer with
  | wait =>
    simp only [hc] at hs
    split_ifs at hs with h1
    simp only [Option.some.injEq] at hs
    subst hs
    simp only [stepsLeft, hc, CloserPC.weight]
    omega
  | closeError =>
    simp only [hc] at hs
    split_ifs at hs with h1
    all_goals
      simp only [Option.some.injEq] at hs
      subst hs
      simp only [stepsLeft, hc, hp, CloserPC.weight]
      simp
  | finished => simp [hc] at hs

theorem mass_stepsLeft_callerStep {users : List ClientInfoResponse} {s s2 : State}
    (hs : callerStep s = some s2) : stepsLeft users s2 < stepsLeft users s := by
  unfold callerStep at hs
  by_cases h1 : s.returned = true
  · simp [h1] at hs
  rw [if_neg h1] at hs
  split at hs
  · rename_i r rest hc
    simp only [Option.some.injEq] at hs
    subst hs
    simp only [stepsLeft, hc, List.length_cons]
    omega
  · rename_i hc
    split_ifs at hs with h2
    simp only [Option.some.injEq] at hs
    subst hs
    simp only [stepsLeft, h1]
    simp

theorem mass_stepsLeft_workerStep {op : Nat → String → String → Option Error}
    {users : List ClientInfoResponse} {message : String} {w : Nat} {s s2 : State}
    (hp : s.panicked = false)
    (hs : workerStep op users message w s = some s2) :
    stepsLeft users s2 < stepsLeft users s := by
  unfold workerStep at hs
  cases hw : s.workers[w]? with
  | none => simp [hw] at hs
  | some wk =>
    simp only [hw] at hs
    obtain ⟨pre, post, hsplit, hset⟩ := split_at_worker hw
    obtain ⟨pc, tr⟩ := wk
    cases pc with
    | recv =>
      simp only at hs
      split at hs
      · rename_i c rest hc
        simp only [Option.some.injEq] at hs
        subst hs
        simp only [stepsLeft, hset, hc, List.length_cons]
        rw [hsplit]
        simp only [wsum_append, wsum_cons, PC.weight]
        omega
      · rename_i hc
        split_ifs at hs with h1 h2
        · simp only [Option.some.injEq] at hs
          subst hs
          simp only [stepsLeft, hp]
          simp
        · simp only [Option.some.injEq] at hs
          subst hs
          simp only [stepsLeft, hset]
          rw [hsplit]
          simp only [wsum_append, wsum_cons, PC.weight]
          omega
    | call c =>
      simp only at hs
      split at hs
      all_goals
        simp only [Option.some.injEq] at hs
        subst hs
        simp only [stepsLeft, hset]
        rw [hsplit]
        simp only [wsum_append, wsum_cons, PC.weight]
        omega
    | sendErr e =>
      simp only at hs
      split_ifs at hs with h1 h2
      · simp only [Option.some.injEq] at hs
        subst hs
        simp only [stepsLeft, hp]
        simp
      · simp only [Option.some.injEq] at hs
        subst hs
        simp only [stepsLeft, hset, List.length_append, List.length_singleton]
        rw [hsplit]
        simp only [wsum_append, wsum_cons, PC.weight]
        omega
    | sendRes r => simp at hs
    | sleep => simp at hs
    | done => simp at hs

theorem mass_stepsLeft_step {op : Nat → String → String → Option Error}
    {users : List ClientInfoResponse} {message : String} {a : Action} {s s2 : State}
    (hs : step op users message a s = some s2) : stepsLeft users s2 < stepsLeft users s := by
  unfold step at hs
  by_cases hp : s.panicked = true
  · simp [hp] at hs
  rw [if_neg hp] at hs
  have hp2 : s.panicked = false := by simpa using hp
  cases a with
  | producer => exact mass_stepsLeft_producerStep hp2 hs
  | worker w => exact mass_stepsLeft_workerStep hp2 hs
  | closer => exact mass_stepsLeft_closerStep hp2 hs
  | caller => exact mass_stepsLeft_callerStep hs

theorem mass_run_length_le {op : Nat → String → String → Option Error}
    {users : List ClientInfoResponse} {message : String} (sched : List Action) :
    ∀ {s s2 : State}, run op users message sched s = some s2 →
      sched.length + stepsLeft users s2 ≤ stepsLeft users s := by
  induction sched with
  | nil =>
    intro s s2 hr
    simp only [run, Option.some.injEq] at hr
    subst hr
    simp
  | cons a t ih =>
    intro s s2 hr
    simp only [run] at hr
    cases hst : step op users message a s with
    | none => simp [hst] at hr
    | some s1 =>
      rw [hst] at hr
      have h1 := ih hr
      have h2 := mass_stepsLeft_step hst
      simp only [List.length_cons]
      omega

theorem mass_all_done_of_wg {op : Nat → String → String → Option Error}
    {users : List ClientInfoResponse} {message : String} {workers start_index : Int}
    {s : State} (h : Inv op users message workers start_index s) (hwg : s.wg = 0) :
    ∀ wk ∈ s.workers, wk.pc = .done := by
  intro wk hwk
  have := le_wsum (fun wk => wk.pc.alive) hwk
  rw [h.wg_eq, hwg] at this
  cases hpc : wk.pc <;> simp [hpc, PC.alive] at this ⊢

theorem mass_exists_alive {op : Nat → String → String → Option Error}
    {users : List ClientInfoResponse} {message : String} {workers start_index : Int}
    {s : State} (h : Inv op users message workers start_index s) (hwg : s.wg ≠ 0) :
    ∃ (w : Nat) (wk : Worker ClientInfoResponse Unit),
      s.workers[w]? = some wk ∧ wk.pc ≠ .done := by
  by_contra hcon
  push_neg at hcon
  apply hwg
  rw [← h.wg_eq]
  apply wsum_eq_zero
  intro wk hwk
  obtain ⟨w, hw⟩ := List.getElem?_of_mem hwk
  have := hcon w wk hw
  simp [this, PC.alive]

theorem sent_le {op : Nat → String → String → Option Error}
    {users : List ClientInfoResponse} {message : String} {workers start_index : Int}
    {s : State} (h : Inv op users message workers start_index s) :
    (s.i - start_index).toNat ≤ users.length ∧
      ((s.i - start_index).toNat ≤ s.i.toNat ∨ s.i = start_index) := by
  have h1 := h.i_ge
  have h2 := h.advanced
  by_cases h3 : start_index < s.i
  · have := h2 h3
    omega
  · have : s.i = start_index := by omega
    omega

/-- Deadlock freedom: while the process has not panicked and the caller has
not returned, some goroutine can move. -/
theorem mass_progress {op : Nat → String → String → Option Error}
    {users : List ClientInfoResponse} {message : String} {workers start_index : Int}
    {s : State} (h : Inv op users message workers start_index s)
    (hp : s.panicked = false) (hret : s.returned = false) :
    ∃ a, (step op users message a s).isSome = true := by
  have hcount := h.count
  have hsent := sent_le h
  by_cases hcl : s.userClosed = true
  swap
  · refine ⟨.producer, ?_⟩
    simp only [step, hp, producerStep, hcl]
    by_cases hn : s.i < users.length
    swap
    · simp [hn]
    by_cases h0 : s.i < 0
    · simp [hn, h0]
    have hlt : s.i.toNat < users.length := by omega
    have hget : users[s.i.toNat]? = some users[s.i.toNat] := List.getElem?_eq_getElem hlt
    have : s.userChan.length < users.length := by omega
    simp [hn, h0, hget, this]
  by_cases hwg : s.wg = 0
  swap
  · obtain ⟨w, wk, hw, hpc⟩ := mass_exists_alive h hwg
    refine ⟨.worker w, ?_⟩
    have hmem := mem_of_getElem?_eq_some hw
    have hin := le_wsum (fun wk => wk.pc.inflight) hmem
    have hok := (h.wlocal wk hmem).pcOk
    simp only [step, hp, workerStep, hw]
    obtain ⟨pc, tr⟩ := wk
    cases pc with
    | recv =>
      cases hc : s.userChan with
      | nil => simp [hcl, hwg]
      | cons c rest => simp
    | call c =>
      cases hop : op s.calls c.TelegramID message <;> simp [hop]
    | sendErr e =>
      have hin1 : 1 ≤ wsum (fun wk => wk.pc.inflight) s.workers := hin
      have : s.errorChan.length < users.length := by omega
      by_cases he : s.errorClosed = true <;> simp [he, this]
    | sendRes r => simp [PC.owesPause] at hok
    | sleep => simp [PC.owesPause] at hok
    | done => exact absurd rfl hpc
  by_cases hfin : s.closer = .finished
  swap
  · refine ⟨.closer, ?_⟩
    simp only [step, hp, closerStep]
    cases hc : s.closer with
    | wait => simp [hwg]
    | closeError => by_cases he : s.errorClosed = true <;> simp [he]
    | finished => exact absurd hc hfin
  refine ⟨.caller, ?_⟩
  have hrc : s.errorClosed = true := h.errorClosed_iff.2 hfin
  simp only [step, hp, callerStep, hret]
  cases hc : s.errorChan with
  | nil => simp [hrc]
  | cons r rest => simp

/-- With a start offset that is not negative, the caller can be brought to
return from every state that satisfies the invariant. -/
theorem mass_exists_run_returned {op : Nat → String → String → Option Error}
    {users : List ClientInfoResponse} {message : String} {workers start_index : Int}
    (h0 : 0 ≤ start_index) :
    ∀ (n : Nat) (s : State), stepsLeft users s ≤ n →
      Inv op users message workers start_index s →
      ∃ sched s2, run op users message sched s = some s2 ∧ s2.returned = true := by
  intro n
  induction n with
  | zero =>
    intro s hn h
    have hp : s.panicked = false := by
      cases hpp : s.panicked
      · rfl
      · have := h.panic_imp hpp
        omega
    simp only [stepsLeft, hp] at hn
    simp at hn
  | succ n ih =>
    intro s hn h
    have hp : s.panicked = false := by
      cases hpp : s.panicked
      · rfl
      · have := h.panic_imp hpp
        omega
    by_cases hret : s.returned = true
    · exact ⟨[], s, rfl, hret⟩
    · have hret2 : s.returned = false := by simpa using hret
      obtain ⟨a, ha⟩ := mass_progress h hp hret2
      obtain ⟨s1, hs1⟩ := Option.isSome_iff_exists.1 ha
      have hdec := mass_stepsLeft_step hs1
      obtain ⟨sched, s2, hr, hfin⟩ := ih s1 (by omega) (mass_inv_step h hs1)
      refine ⟨a :: sched, s2, ?_, hfin⟩
      simp only [run, hs1, Option.some_bind]
      exact hr

end MassMalling

/-! ### States in which the caller has returned -/

theorem coe_flatMap {α ρ β : Type} (f : Worker α ρ → List β) (ws : List (Worker α ρ)) :
    ((ws.flatMap f : List β) : Multiset β) = wsum (fun wk => (↑(f wk) : Multiset β)) ws := by
  induction ws with
  | nil => rfl
  | cons a t ih =>
    rw [List.flatMap_cons, wsum_cons, ← ih, Multiset.coe_add]

theorem flatMap_congr_mem {α β : Type} {l : List α} {f g : α → List β}
    (h : ∀ x ∈ l, f x = g x) : l.flatMap f = l.flatMap g := by
  induction l with
  | nil => rfl
  | cons a t ih =>
    rw [List.flatMap_cons, List.flatMap_cons, h a (List.mem_cons_self _ _),
      ih (fun x hx => h x (List.mem_cons_of_mem _ hx))]

theorem filterMap_flatMap_eq {α β γ : Type} (l : List α) (f : α → List β) (g : β → Option γ) :
    (l.flatMap f).filterMap g = l.flatMap (fun x => (f x).filterMap g) := by
  induction l with
  | nil => rfl
  | cons a t ih =>
    rw [List.flatMap_cons, List.flatMap_cons, List.filterMap_append, ih]

theorem called_length {α ρ : Type} (tr : List (Event α ρ)) :
    (tr.filterMap Event.called).length
      = (tr.filterMap Event.okResult).length + (tr.filterMap Event.errResult).length := by
  induction tr with
  | nil => rfl
  | cons e t ih =>
    cases e <;>
      simp only [List.filterMap_cons, Event.called, Event.okResult, Event.errResult,
        List.length_cons, ih] <;> omega

theorem okResult_of_answered {α ρ : Type} (g : α → Except Error ρ)
    (tr : List (Event α ρ)) (h : ∀ e ∈ tr, e.answered (fun _ x => g x)) :
    tr.filterMap Event.okResult
      = (tr.filterMap Event.called).filterMap (fun x => (g x).toOption) := by
  induction tr with
  | nil => rfl
  | cons e t ih =>
    have ht := ih (fun e he => h e (List.mem_cons_of_mem _ he))
    have he := h e (List.mem_cons_self _ _)
    cases e with
    | callOk x r =>
      obtain ⟨k, hk⟩ := he
      simp only [List.filterMap_cons, Event.called, Event.okResult, ht]
      simp only at hk
      simp [hk, Except.toOption]
    | callErr x r =>
      obtain ⟨k, hk⟩ := he
      simp only [List.filterMap_cons, Event.called, Event.okResult, ht]
      simp only at hk
      simp [hk, Except.toOption]
    | claim x => simpa only [List.filterMap_cons, Event.called, Event.okResult] using ht
    | sentRes x => simpa only [List.filterMap_cons, Event.called, Event.okResult] using ht
    | sentErr x => simpa only [List.filterMap_cons, Event.called, Event.okResult] using ht
    | pause => simpa only [List.filterMap_cons, Event.called, Event.okResult] using ht

theorem filterMap_toOption_length {α ρ : Type} (g : α → Except Error ρ) (l : List α) :
    (l.filterMap (fun x => (g x).toOption)).length
      + (l.filter (fun x => (g x).toOption.isNone)).length = l.length := by
  induction l with
  | nil => rfl
  | cons a t ih =>
    cases hg : (g a).toOption with
    | none =>
      simp only [List.filterMap_cons, hg, List.filter_cons, Option.isNone_none, if_true,
        List.length_cons]
      omega
    | some b =>
      simp only [List.filterMap_cons, hg, List.filter_cons, Option.isNone_some,
        List.length_cons]
      simp
      omega

namespace GetClientInfoBatch

theorem returned_facts {op : Nat → Int → Except Error ClientInfoResponse}
    {clients : List Client} {workers : Int} {s : State}
    (h : Inv op clients workers s) (hret : s.returned = true) :
    (∀ wk ∈ s.workers, wk.pc = .done) ∧ s.resultChan = [] ∧
      (1 ≤ workers → s.clientChan = [] ∧ s.next = clients.length) := by
  have h1 := h.returned_imp hret
  have hwg : s.wg = 0 := by
    apply h.closer_wg
    rcases h.resultClosed_iff.1 h1.1 with hc | hc <;> rw [hc] <;> simp
  have hdone := all_done_of_wg h hwg
  refine ⟨hdone, h1.2, fun hW => ?_⟩
  have hlen : 0 < s.workers.length := by
    rw [h.size]
    omega
  obtain ⟨wk, hwk⟩ := List.exists_mem_of_length_pos hlen
  have := h.done_imp wk hwk (hdone wk hwk)
  exact ⟨this.2, h.closed_next this.1⟩

theorem claimed_subperm {op : Nat → Int → Except Error ClientInfoResponse}
    {clients : List Client} {workers : Int} {s : State}
    (h : Inv op clients workers s) : (claimedBy s.workers).Subperm clients := by
  have hi := h.items
  rw [← coe_flatMap, add_assoc] at hi
  have : ((claimedBy s.workers : List Client) : Multiset Client) ≤ ↑clients := by
    rw [← hi]
    exact Multiset.le_add_right _ _
  exact Multiset.coe_le.1 this

theorem sent_lengths {op : Nat → Int → Except Error ClientInfoResponse}
    {clients : List Client} {workers : Int} {s : State}
    (h : Inv op clients workers s) :
    (resultsSentBy s.workers).length = s.results.length + s.resultChan.length ∧
      (errorsSentBy s.workers).length = s.errorChan.length := by
  have h1 := h.collected
  have h2 := h.errors
  rw [← coe_flatMap] at h1 h2
  constructor
  · have := congrArg Multiset.card h1
    simpa [resultsSentBy] using this
  · have := congrArg Multiset.card h2
    simpa [errorsSentBy] using this

theorem final_facts {op : Nat → Int → Except Error ClientInfoResponse}
    {clients : List Client} {workers : Int} {s : State}
    (h : Inv op clients workers s) (hret : s.returned = true) (hW : 1 ≤ workers) :
    (claimedBy s.workers).Perm clients ∧
      (∀ wk ∈ s.workers,
        wk.trace.filterMap Event.called = wk.trace.filterMap Event.claimed ∧
        wk.trace.filterMap Event.resSent = wk.trace.filterMap Event.okResult ∧
        wk.trace.filterMap Event.errSent = wk.trace.filterMap Event.errResult) ∧
      s.results.Perm (resultsSentBy s.workers) ∧
      s.errorChan.Perm (errorsSentBy s.workers) ∧
      s.results.length + s.errorChan.length = clients.length := by
  obtain ⟨hdone, hrc, hrest⟩ := returned_facts h hret
  obtain ⟨hcc, hnext⟩ := hrest hW
  refine ⟨?_, ?_, ?_, ?_, ?_⟩
  · have hi := h.items
    rw [← coe_flatMap, hcc, hnext, List.drop_length] at hi
    simp only [Multiset.coe_nil, add_zero] at hi
    exact Multiset.coe_eq_coe.1 hi
  · intro wk hwk
    have hl := h.wlocal wk hwk
    have hpc := hdone wk hwk
    have h1 := hl.called
    have h2 := hl.sentOk
    have h3 := hl.sentErr
    rw [hpc] at h1 h2 h3
    simp only [PC.holding, PC.pendingRes, PC.pendingErr, List.append_nil] at h1 h2 h3
    exact ⟨h1, h2, h3⟩
  · have hc := h.collected
    rw [← coe_flatMap, hrc] at hc
    simp only [Multiset.coe_nil, add_zero] at hc
    exact (Multiset.coe_eq_coe.1 hc).symm
  · have hc := h.errors
    rw [← coe_flatMap] at hc
    exact (Multiset.coe_eq_coe.1 hc).symm
  · have hc := h.count
    have hz : wsum (fun wk => wk.pc.inflight) s.workers = 0 := by
      apply wsum_eq_zero
      intro wk hwk
      rw [hdone wk hwk]
      rfl
    rw [hz, hcc, hrc, hnext] at hc
    simp only [List.length_nil] at hc
    omega

theorem results_perm_reference {f : Int → Except Error ClientInfoResponse}
    {clients : List Client} {workers : Int} {s : State}
    (h : Inv (fun _ => f) clients workers s) (hret : s.returned = true) (hW : 1 ≤ workers) :
    s.results.Perm (reference f clients) := by
  obtain ⟨h1, h2, h3, _, _⟩ := final_facts h hret hW
  refine h3.trans ?_
  have : resultsSentBy s.workers
      = (claimedBy s.workers).filterMap (fun c => (f c.Id).toOption) := by
    unfold resultsSentBy claimedBy
    rw [filterMap_flatMap_eq]
    apply flatMap_congr_mem
    intro wk hwk
    obtain ⟨hc, hr, _⟩ := h2 wk hwk
    rw [hr, ← hc]
    exact okResult_of_answered (fun c : Client => f c.Id) wk.trace (h.wlocal wk hwk).answers
  rw [this]
  exact h1.filterMap _

end GetClientInfoBatch

namespace MassMalling

theorem mass_returned_facts {op : Nat → String → String → Option Error}
    {users : List ClientInfoResponse} {message : String} {workers start_index : Int}
    {s : State} (h : Inv op users message workers start_index s)
    (hret : s.returned = true) :
    (∀ wk ∈ s.workers, wk.pc = .done) ∧ s.errorChan = [] ∧
      (1 ≤ workers → s.userChan = [] ∧ (users.length : Int) ≤ s.i) := by
  have h1 := h.returned_imp hret
  have hwg : s.wg = 0 := by
    apply h.closer_wg
    rw [h.errorClosed_iff.1 h1.1]
    simp
  have hdone := mass_all_done_of_wg h hwg
  refine ⟨hdone, h1.2, fun hW => ?_⟩
  have hlen : 0 < s.workers.length := by
    rw [h.size]
    omega
  obtain ⟨wk, hwk⟩ := List.exists_mem_of_length_pos hlen
  have := h.done_imp wk hwk (hdone wk hwk)
  exact ⟨this.2, h.closed_i this.1⟩

theorem mass_claimed_subperm {op : Nat → String → String → Option Error}
    {users : List ClientInfoResponse} {message : String} {workers start_index : Int}
    {s : State} (h : Inv op users message workers start_index s) :
    (claimedBy s.workers).Subperm (pendingItems users start_index) := by
  have hi := h.items
  rw [← coe_flatMap, add_assoc] at hi
  have : ((claimedBy s.workers : List ClientInfoResponse) : Multiset ClientInfoResponse)
      ≤ ↑(pendingItems users start_index) := by
    rw [← hi]
    exact Multiset.le_add_right _ _
  exact Multiset.coe_le.1 this

theorem sent_length {op : Nat → String → String → Option Error}
    {users : List ClientInfoResponse} {message : String} {workers start_index : Int}
    {s : State} (h : Inv op users message workers start_index s) :
    (errorsSentBy s.workers).length = s.logged.length + s.errorChan.length := by
  have h2 := h.errors
  rw [← coe_flatMap] at h2
  have := congrArg Multiset.card h2
  simpa [errorsSentBy] using this

theorem final_attempts {op : Nat → String → String → Option Error}
    {users : List ClientInfoResponse} {message : String} {workers start_index : Int}
    {s : State} (h : Inv op users message workers start_index s)
    (hret : s.returned = true) (hW : 1 ≤ workers) (h0 : 0 ≤ start_index) :
    (attempts s).Perm (users.drop start_index.toNat) := by
  obtain ⟨hdone, _, hrest⟩ := mass_returned_facts h hret
  obtain ⟨hcc, hi⟩ := hrest hW
  have hatt : attempts s = claimedBy s.workers := by
    unfold attempts claimedBy
    apply flatMap_congr_mem
    intro wk hwk
    have h1 := (h.wlocal wk hwk).called
    rw [hdone wk hwk] at h1
    simpa only [PC.holding, List.append_nil] using h1
  rw [hatt]
  have hit := h.items
  have hge := h.i_ge
  have hp1 : pendingItems users s.i = [] := by
    have : ¬ s.i < 0 := by omega
    simp only [pendingItems, this, if_false]
    apply List.drop_eq_nil_of_le
    omega
  have hp2 : pendingItems users start_index = users.drop start_index.toNat := by
    have : ¬ start_index < 0 := by omega
    simp only [pendingItems, this, if_false]
  rw [← coe_flatMap, hcc, hp1, hp2] at hit
  simp only [Multiset.coe_nil, add_zero] at hit
  exact Multiset.coe_eq_coe.1 hit

end MassMalling

/-! ### The claims -/

theorem loop_foldl (rows acc : List Client) :
    rows.foldl
      (fun resultClients v =>
        if v.Status != -1 && v.IsTelegram then resultClients ++ [v] else resultClients) acc
      = acc ++ rows.filter (fun v => v.Status != -1 && v.IsTelegram) := by
  induction rows generalizing acc with
  | nil => simp
  | cons v t ih =>
    rw [List.foldl_cons, ih, List.filter_cons]
    by_cases hv : (v.Status != -1 && v.IsTelegram) = true
    · simp only [hv, if_true, List.append_assoc, List.singleton_append]
    · simp only [hv, if_false]
      simp

/-- C1: for every list of clients, every remote operation and every worker
count of at least one, `GetClientInfoBatch` returns, and whenever it has
returned each input item has been claimed exactly once, every worker has called
the operation on exactly the items it claimed and sent each successful outcome
on `resultChan` and each failure on `errorChan`, the returned results are the
values sent on `resultChan`, and successes plus failures equal `len(clients)`;
with no input both collections are empty. -/
theorem C1_one_outcome_per_item (op : Nat → Int → Except Error ClientInfoResponse)
    (clients : List Client) (workers : Int) (hW : 1 ≤ workers) :
    (∃ sched s, GetClientInfoBatch.run op clients sched (GetClientInfoBatch.init workers)
        = some s ∧ s.returned = true) ∧
    ∀ sched s, GetClientInfoBatch.run op clients sched (GetClientInfoBatch.init workers)
        = some s → s.returned = true →
      (claimedBy s.workers).Perm clients ∧
      (∀ wk ∈ s.workers,
        wk.trace.filterMap Event.called = wk.trace.filterMap Event.claimed ∧
        wk.trace.filterMap Event.resSent = wk.trace.filterMap Event.okResult ∧
        wk.trace.filterMap Event.errSent = wk.trace.filterMap Event.errResult ∧
        (wk.trace.filterMap Event.claimed).length
          = (wk.trace.filterMap Event.resSent).length
            + (wk.trace.filterMap Event.errSent).length) ∧
      s.results.Perm (resultsSentBy s.workers) ∧
      s.errorChan.Perm (errorsSentBy s.workers) ∧
      s.results.length + s.errorChan.length = clients.length ∧
      (clients = [] → s.results = [] ∧ s.errorChan = []) := by
  refine ⟨GetClientInfoBatch.exists_run_returned _ _ (le_refl _)
    (GetClientInfoBatch.inv_init op clients workers), ?_⟩
  intro sched s hr hret
  have h := GetClientInfoBatch.inv_run sched (GetClientInfoBatch.inv_init op clients workers) hr
  obtain ⟨h1, h2, h3, h4, h5⟩ := GetClientInfoBatch.final_facts h hret hW
  refine ⟨h1, ?_, h3, h4, h5, ?_⟩
  · intro wk hwk
    obtain ⟨a, b, c⟩ := h2 wk hwk
    refine ⟨a, b, c, ?_⟩
    rw [← a, b, c]
    exact called_length wk.trace
  · intro hnil
    rw [hnil] at h5
    simp only [List.length_nil] at h5
    constructor
    · apply List.eq_nil_of_length_eq_zero
      omega
    · apply List.eq_nil_of_length_eq_zero
      omega

theorem C1_witness :
    (1 : Int) ≤ 2 ∧
    ∃ sched s, GetClientInfoBatch.run sampleOp [sampleClient 1, sampleClient 2] sched
        (GetClientInfoBatch.init 2) = some s ∧ s.returned = true :=
  ⟨by decide, (C1_one_outcome_per_item sampleOp [sampleClient 1, sampleClient 2] 2
    (by decide)).1⟩

/-- C2: for a deterministic per-item operation `f` and every worker count of at
least one, `GetClientInfoBatch` returns, and under every schedule the returned
results are a permutation of the sequential reference (the successes of `f` over
the clients, in order); with three clients of which only the second fails, the
results are the values of the first and the third. -/
theorem C2_results_independent_of_schedule (f : Int → Except Error ClientInfoResponse)
    (clients : List Client) (workers : Int) (hW : 1 ≤ workers) :
    (∃ sched s, GetClientInfoBatch.run (fun _ => f) clients sched
        (GetClientInfoBatch.init workers) = some s ∧ s.returned = true) ∧
    (∀ sched s rs err, GetClientInfoBatch.run (fun _ => f) clients sched
        (GetClientInfoBatch.init workers) = some s →
      GetClientInfoBatch.returnValue s = some (rs, err) →
      rs.Perm (GetClientInfoBatch.reference f clients)) ∧
    (∀ c1 c2 c3 v1 e2 v3, clients = [c1, c2, c3] → f c1.Id = .ok v1 →
      f c2.Id = .error e2 → f c3.Id = .ok v3 →
      ∀ sched s rs err, GetClientInfoBatch.run (fun _ => f) clients sched
          (GetClientInfoBatch.init workers) = some s →
        GetClientInfoBatch.returnValue s = some (rs, err) → rs.Perm [v1, v3]) := by
  have key : ∀ sched s rs err, GetClientInfoBatch.run (fun _ => f) clients sched
        (GetClientInfoBatch.init workers) = some s →
      GetClientInfoBatch.returnValue s = some (rs, err) →
      rs.Perm (GetClientInfoBatch.reference f clients) := by
    intro sched s rs err hr hv
    have h := GetClientInfoBatch.inv_run sched
      (GetClientInfoBatch.inv_init (fun _ => f) clients workers) hr
    unfold GetClientInfoBatch.returnValue at hv
    by_cases hret : s.returned = true
    · rw [if_pos hret] at hv
      simp only [Option.some.injEq, Prod.mk.injEq] at hv
      rw [← hv.1]
      exact GetClientInfoBatch.results_perm_reference h hret hW
    · rw [if_neg hret] at hv
      cases hv
  refine ⟨GetClientInfoBatch.exists_run_returned _ _ (le_refl _)
    (GetClientInfoBatch.inv_init _ clients workers), key, ?_⟩
  intro c1 c2 c3 v1 e2 v3 hc h1 h2 h3 sched s rs err hr hv
  have := key sched s rs err hr hv
  rw [hc] at this
  simpa [GetClientInfoBatch.reference, h1, h2, h3, Except.toOption] using this

theorem C2_witness :
    (1 : Int) ≤ 3 ∧
    ∀ sched s rs err, GetClientInfoBatch.run (fun _ => sampleOp 0)
        [sampleClient 1, sampleClient 2, sampleClient 3] sched
        (GetClientInfoBatch.init 3) = some s →
      GetClientInfoBatch.returnValue s = some (rs, err) →
      rs.Perm [sampleInfo 1, sampleInfo 3] :=
  ⟨by decide, (C2_results_independent_of_schedule (sampleOp 0)
    [sampleClient 1, sampleClient 2, sampleClient 3] 3 (by decide)).2.2
      (sampleClient 1) (sampleClient 2) (sampleClient 3) (sampleInfo 1)
      (.transport "timeout") (sampleInfo 3) rfl rfl rfl rfl⟩

/-- C3: the list `GetClients` returns for decoded rows is exactly the rows with
`Status != -1` and `IsTelegram`, in their original order; a row is retained if
and only if both hold, and overwriting `Block`, `IsVK`, `IsFb` and `IsGroup` in
every row does not change which rows are retained. -/
theorem C3_getClients_filter (rows : List Client) :
    GetClients.loop rows = rows.filter (fun v => v.Status != -1 && v.IsTelegram) ∧
    (∀ count singleType,
      GetClients (.ok (.ok { Count := count, SingleType := singleType, Rows := rows }))
        = .ok (rows.filter (fun v => v.Status != -1 && v.IsTelegram))) ∧
    (∀ v, v ∈ GetClients.loop rows ↔ v ∈ rows ∧ v.Status ≠ -1 ∧ v.IsTelegram = true) ∧
    (∀ block isVK isFb isGroup : Bool,
      GetClients.loop (rows.map (fun v =>
          { v with Block := block, IsVK := isVK, IsFb := isFb, IsGroup := isGroup }))
        = (GetClients.loop rows).map (fun v =>
          { v with Block := block, IsVK := isVK, IsFb := isFb, IsGroup := isGroup })) := by
  have hloop : ∀ rs : List Client,
      GetClients.loop rs = rs.filter (fun v => v.Status != -1 && v.IsTelegram) := by
    intro rs
    unfold GetClients.loop
    rw [loop_foldl]
    rfl
  refine ⟨hloop rows, ?_, ?_, ?_⟩
  · intro count singleType
    simp only [GetClients, hloop]
  · intro v
    rw [hloop, List.mem_filter]
    simp
  · intro block isVK isFb isGroup
    rw [hloop, hloop, List.filter_map]
    rfl

/-- C6 as stated fails: with status 201 (a 2xx code) and a body read without
error, `Malling` returns an error. -/
theorem C6_counterexample :
    ¬ (∀ (status : Int) (body : String),
        (Malling (.ok { StatusCode := status, Body := .ok body }) ≠ none
          ↔ ¬ (200 ≤ status ∧ status ≤ 299))) := by
  intro h
  have := (h 201 "").1 (by simp [Malling])
  omega

/-- C6 amended: given a response received and read without a transport error,
`Malling` returns an error if and only if the status code differs from 200, and
that error carries the status code and the raw body; for status 200 it returns
`nil`. -/
theorem C6_error_iff_not_200 (status : Int) (body : String) :
    (Malling (.ok { StatusCode := status, Body := .ok body }) ≠ none ↔ status ≠ 200) ∧
    (status ≠ 200 →
      Malling (.ok { StatusCode := status, Body := .ok body }) = some (.api status body)) ∧
    (status = 200 → Malling (.ok { StatusCode := status, Body := .ok body }) = none) := by
  by_cases h : status = 200
  · subst h
    simp [Malling]
  · simp [Malling, h]

/-- C10 at the failing input: when `GetClients` fails and every other call
succeeds, `main` still saves the client list, runs `GetClientInfoBatch` and
saves the detail collection. -/
theorem C10_main_continues_after_listing_error :
    main listingFails =
      [.loadConfig, .GetAccessToken, .TestMalling, .GetClients, .SaveClientsToJSON,
        .GetClientInfoBatch, .SaveClientInfoToJSON, .printSample] := by
  decide

/-- C4: for every recipient list, every start offset `k ≥ 0` (so in particular
`0 ≤ k ≤ len(users)`) and every worker count of at least one, `MassMalling`
returns, and whenever it has returned the recipients passed to `Malling` are a
permutation of `users[k:]`: exactly `len(users) - k` attempts, none for
`users[0..k)`. -/
theorem C4_offset_slices_input (op : Nat → String → String → Option Error)
    (users : List ClientInfoResponse) (message : String) (workers k : Int)
    (hW : 1 ≤ workers) (hk0 : 0 ≤ k) :
    (∃ sched s, MassMalling.run op users message sched (MassMalling.init workers k)
        = some s ∧ s.returned = true) ∧
    ∀ sched s, MassMalling.run op users message sched (MassMalling.init workers k)
        = some s → s.returned = true →
      (MassMalling.attempts s).Perm (users.drop k.toNat) ∧
      ((MassMalling.attempts s).map (fun u => u.TelegramID)).Perm
        ((users.drop k.toNat).map (fun u => u.TelegramID)) ∧
      (MassMalling.attempts s).length = users.length - k.toNat := by
  refine ⟨MassMalling.mass_exists_run_returned hk0 _ _ (le_refl _)
    (MassMalling.mass_inv_init op users message workers k), ?_⟩
  intro sched s hr hret
  have h := MassMalling.mass_inv_run sched (MassMalling.mass_inv_init op users message workers k) hr
  have hp := MassMalling.final_attempts h hret hW hk0
  refine ⟨hp, hp.map _, ?_⟩
  rw [hp.length_eq, List.length_drop]

theorem C4_witness :
    (1 : Int) ≤ 2 ∧ (0 : Int) ≤ 1 ∧
    ∃ sched s, MassMalling.run sampleSend [sampleInfo 1, sampleInfo 2] "hello" sched
        (MassMalling.init 2 1) = some s ∧ s.returned = true :=
  ⟨by decide, by decide,
    (C4_offset_slices_input sampleSend [sampleInfo 1, sampleInfo 2] "hello" 2 1
      (by decide) (by decide)).1⟩

/-- C5 as stated fails: in `GetClientInfoBatch` a worker whose call failed
claims its next item with no pause in between, and in `MassMalling` a worker
claims its next item after a call with no pause at all. -/
theorem C5_counterexample :
    (GetClientInfoBatch.run sampleOp [sampleClient 2, sampleClient 1]
        [.producer, .producer, .worker 0, .worker 0, .worker 0, .worker 0]
        (GetClientInfoBatch.init 1)).map (fun s => s.workers.map (fun wk => paced wk.trace))
      = some [false] ∧
    (MassMalling.run sampleSend [sampleInfo 1, sampleInfo 2] "hello"
        [.producer, .producer, .worker 0, .worker 0, .worker 0]
        (MassMalling.init 1 0)).map (fun s => s.workers.map (fun wk => paced wk.trace))
      = some [false] := by
  constructor <;> rfl

/-- C5 amended: in every reachable state of `GetClientInfoBatch`, in the trace
of every worker each successful operation call is followed by a pause before
that worker's next claim; in every reachable state of `MassMalling` no worker
has paused. -/
theorem C5_pause_after_success (op : Nat → Int → Except Error ClientInfoResponse)
    (clients : List Client) (workers : Int)
    (opM : Nat → String → String → Option Error) (users : List ClientInfoResponse)
    (message : String) (workersM start_index : Int) :
    (∀ s, GetClientInfoBatch.Reachable op clients workers s →
      ∀ wk ∈ s.workers, pacedOk wk.trace = true) ∧
    (∀ s, MassMalling.Reachable opM users message workersM start_index s →
      ∀ wk ∈ s.workers, Event.pause ∉ wk.trace) := by
  constructor
  · intro s hs wk hwk
    have h := GetClientInfoBatch.inv_reachable hs
    unfold pacedOk
    rw [(h.wlocal wk hwk).pacing]
    rfl
  · intro s hs wk hwk
    exact ((MassMalling.mass_inv_reachable hs).wlocal wk hwk).noPause

/-- C7 as stated fails: with two workers and one client, `GetClientInfoBatch`
starts two workers. -/
theorem C7_counterexample :
    ¬ (∀ (clients : List Client) (workers : Int), (clients.length : Int) < workers →
        (GetClientInfoBatch.init workers).workers.length ≤ clients.length) := by
  intro h
  have := h [sampleClient 1] 2 (by decide)
  revert this
  decide

/-- C7 amended: when the worker count exceeds the number of input items, both
batch operations still run exactly `workers` worker goroutines, more than there
are items; no item is claimed twice; a worker at the head of its loop with the
work channel empty and closed can leave; while the caller has not returned some
goroutine can move; on return every worker has exited; and
`GetClientInfoBatch` does return. -/
theorem C7_workers_exceeding_items (op : Nat → Int → Except Error ClientInfoResponse)
    (clients : List Client) (workers : Int)
    (opM : Nat → String → String → Option Error) (users : List ClientInfoResponse)
    (message : String) (workersM start_index : Int)
    (hW : (clients.length : Int) < workers)
    (hWM : ((MassMalling.pendingItems users start_index).length : Int) < workersM) :
    (∀ s, GetClientInfoBatch.Reachable op clients workers s →
      s.workers.length = workers.toNat ∧ clients.length < s.workers.length ∧
      (claimedBy s.workers).Subperm clients ∧
      (∀ w wk, s.workers[w]? = some wk → wk.pc = .recv → s.clientChan = [] →
        s.clientClosed = true →
        (GetClientInfoBatch.step op clients (.worker w) s).isSome = true) ∧
      (s.returned = false → ∃ a, (GetClientInfoBatch.step op clients a s).isSome = true) ∧
      (s.returned = true → ∀ wk ∈ s.workers, wk.pc = .done)) ∧
    (∃ sched s, GetClientInfoBatch.run op clients sched (GetClientInfoBatch.init workers)
        = some s ∧ s.returned = true) ∧
    (∀ s, MassMalling.Reachable opM users message workersM start_index s →
      s.workers.length = workersM.toNat ∧
      (MassMalling.pendingItems users start_index).length < s.workers.length ∧
      (claimedBy s.workers).Subperm (MassMalling.pendingItems users start_index) ∧
      (s.panicked = false → s.returned = false →
        ∃ a, (MassMalling.step opM users message a s).isSome = true) ∧
      (s.returned = true → ∀ wk ∈ s.workers, wk.pc = .done)) := by
  refine ⟨?_, ?_, ?_⟩
  · intro s hs
    have h := GetClientInfoBatch.inv_reachable hs
    refine ⟨h.size, ?_, GetClientInfoBatch.claimed_subperm h, ?_,
      GetClientInfoBatch.progress h, fun hret => (GetClientInfoBatch.returned_facts h hret).1⟩
    · rw [h.size]
      omega
    · intro w wk hw hpc hch hcl
      obtain ⟨pc, tr⟩ := wk
      simp only at hpc
      subst hpc
      simp only [GetClientInfoBatch.step, h.notPanicked, GetClientInfoBatch.workerStep, hw, hch,
        hcl]
      by_cases hwg : s.wg = 0 <;> simp [hwg]
  · exact GetClientInfoBatch.exists_run_returned _ _ (le_refl _)
      (GetClientInfoBatch.inv_init op clients workers)
  · intro s hs
    have h := MassMalling.mass_inv_reachable hs
    refine ⟨h.size, ?_, MassMalling.mass_claimed_subperm h, MassMalling.mass_progress h,
      fun hret => (MassMalling.mass_returned_facts h hret).1⟩
    rw [h.size]
    omega

theorem C7_witness :
    (([sampleClient 1].length : Int) < 2) ∧
    (((MassMalling.pendingItems [sampleInfo 1] 0).length : Int) < 2) ∧
    ∃ sched s, GetClientInfoBatch.run sampleOp [sampleClient 1] sched
        (GetClientInfoBatch.init 2) = some s ∧ s.returned = true :=
  ⟨by decide, by decide,
    (C7_workers_exceeding_items sampleOp [sampleClient 1] 2 sampleSend [sampleInfo 1]
      "hello" 2 0 (by decide) (by decide)).2.1⟩

/-- C8 as stated fails: a batch of one client whose lookup fails and a batch of
no clients both return the pair of an empty result list and a `nil` error,
although one error was sent on `errorChan` in the first and none in the second. -/
theorem C8_counterexample :
    (GetClientInfoBatch.run failingOp [sampleClient 1]
        [.producer, .producer, .worker 0, .worker 0, .worker 0, .worker 0,
          .closer, .closer, .closer, .caller]
        (GetClientInfoBatch.init 1)).map
          (fun s => (GetClientInfoBatch.returnValue s, s.errorChan.length))
      = some (some ([], none), 1) ∧
    (GetClientInfoBatch.run failingOp []
        [.producer, .worker 0, .closer, .closer, .closer, .caller]
        (GetClientInfoBatch.init 1)).map
          (fun s => (GetClientInfoBatch.returnValue s, s.errorChan.length))
      = some (some ([], none), 0) := by
  constructor <;> rfl

/-- C8 amended: for every worker count of at least one `GetClientInfoBatch`
returns, and what it returns is the success collection with a `nil` error; the
errors of the failed calls, one per failed item, are left in `errorChan`, so
their number is `len(clients)` minus the number of returned results (for a
deterministic operation, the number of clients on which it fails). -/
theorem C8_returns_successes_only (op : Nat → Int → Except Error ClientInfoResponse)
    (clients : List Client) (workers : Int) (hW : 1 ≤ workers) :
    (∃ sched s, GetClientInfoBatch.run op clients sched (GetClientInfoBatch.init workers)
        = some s ∧ s.returned = true) ∧
    ∀ sched s, GetClientInfoBatch.run op clients sched (GetClientInfoBatch.init workers)
        = some s → s.returned = true →
      GetClientInfoBatch.returnValue s = some (s.results, none) ∧
      s.errorChan.Perm (s.workers.flatMap (fun wk => wk.trace.filterMap Event.errResult)) ∧
      s.errorChan.length = clients.length - s.results.length ∧
      (∀ f, op = (fun _ => f) →
        s.errorChan.length = GetClientInfoBatch.failures f clients) := by
  refine ⟨GetClientInfoBatch.exists_run_returned _ _ (le_refl _)
    (GetClientInfoBatch.inv_init op clients workers), ?_⟩
  intro sched s hr hret
  have h := GetClientInfoBatch.inv_run sched (GetClientInfoBatch.inv_init op clients workers) hr
  obtain ⟨h1, h2, h3, h4, h5⟩ := GetClientInfoBatch.final_facts h hret hW
  refine ⟨by simp [GetClientInfoBatch.returnValue, hret], ?_, by omega, ?_⟩
  · refine h4.trans ?_
    unfold errorsSentBy
    rw [flatMap_congr_mem (fun wk hwk => (h2 wk hwk).2.2)]
  · intro f hf
    subst hf
    have hp := (GetClientInfoBatch.results_perm_reference h hret hW).length_eq
    have hl := filterMap_toOption_length (fun c : Client => f c.Id) clients
    unfold GetClientInfoBatch.reference at hp
    unfold GetClientInfoBatch.failures
    omega

theorem C8_witness :
    (1 : Int) ≤ 1 ∧
    ∃ sched s, GetClientInfoBatch.run failingOp [sampleClient 1] sched
        (GetClientInfoBatch.init 1) = some s ∧ s.returned = true :=
  ⟨by decide, (C8_returns_successes_only failingOp [sampleClient 1] 1 (by decide)).1⟩

/-- C9: in every reachable state of either batch operation the errors sent on
`errorChan` and the errors it holds number at most its capacity (`len(clients)`,
resp. `len(users)` whatever the start offset), in `GetClientInfoBatch` the same
holds for `resultChan`; a worker about to send finds the channel open and below
capacity; the process has not panicked in `GetClientInfoBatch`; and while the
caller has not returned (and, in `MassMalling`, the process has not panicked on
a negative offset) some goroutine can move; and no execution is longer than
`stepsLeft` of the initial state. -/
theorem C9_sinks_never_block (op : Nat → Int → Except Error ClientInfoResponse)
    (clients : List Client) (workers : Int)
    (opM : Nat → String → String → Option Error) (users : List ClientInfoResponse)
    (message : String) (workersM start_index : Int) :
    (∀ s, GetClientInfoBatch.Reachable op clients workers s →
      (errorsSentBy s.workers).length ≤ clients.length ∧
      s.errorChan.length ≤ clients.length ∧
      (resultsSentBy s.workers).length ≤ clients.length ∧
      s.resultChan.length ≤ clients.length ∧
      (∀ wk ∈ s.workers, ∀ e, wk.pc = .sendErr e →
        s.errorChan.length < clients.length ∧ s.errorClosed = false) ∧
      (∀ wk ∈ s.workers, ∀ r, wk.pc = .sendRes r →
        s.resultChan.length < clients.length ∧ s.resultClosed = false) ∧
      s.panicked = false ∧
      (s.returned = false → ∃ a, (GetClientInfoBatch.step op clients a s).isSome = true)) ∧
    (∀ sched s, GetClientInfoBatch.run op clients sched (GetClientInfoBatch.init workers)
        = some s →
      sched.length ≤ GetClientInfoBatch.stepsLeft clients (GetClientInfoBatch.init workers)) ∧
    (∀ s, MassMalling.Reachable opM users message workersM start_index s →
      (errorsSentBy s.workers).length ≤ users.length ∧
      s.errorChan.length ≤ users.length ∧
      (∀ wk ∈ s.workers, ∀ e, wk.pc = .sendErr e →
        s.errorChan.length < users.length ∧ s.errorClosed = false) ∧
      (s.panicked = false → s.returned = false →
        ∃ a, (MassMalling.step opM users message a s).isSome = true)) ∧
    (∀ sched s, MassMalling.run opM users message sched
        (MassMalling.init workersM start_index) = some s →
      sched.length ≤ MassMalling.stepsLeft users (MassMalling.init workersM start_index)) := by
  refine ⟨?_, ?_, ?_, ?_⟩
  · intro s hs
    have h := GetClientInfoBatch.inv_reachable hs
    have hc := h.count
    have hn := h.next_le
    obtain ⟨hl1, hl2⟩ := GetClientInfoBatch.sent_lengths h
    have hopen : ∀ wk ∈ s.workers, wk.pc ≠ .done → s.closer = .wait := by
      intro wk hwk hpc
      by_contra hcl
      exact hpc (GetClientInfoBatch.all_done_of_wg h (h.closer_wg hcl) wk hwk)
    refine ⟨by omega, by omega, by omega, by omega, ?_, ?_, h.notPanicked,
      GetClientInfoBatch.progress h⟩
    · intro wk hwk e hpc
      have hin := le_wsum (fun wk => wk.pc.inflight) hwk
      have hin1 : 1 ≤ wsum (fun wk => wk.pc.inflight) s.workers := by
        simpa [hpc, PC.inflight] using hin
      refine ⟨by omega, ?_⟩
      have hw := hopen wk hwk (by rw [hpc]; simp)
      cases hec : s.errorClosed
      · rfl
      · have := h.errorClosed_iff.1 hec
        rw [hw] at this
        cases this
    · intro wk hwk r hpc
      have hin := le_wsum (fun wk => wk.pc.inflight) hwk
      have hin1 : 1 ≤ wsum (fun wk => wk.pc.inflight) s.workers := by
        simpa [hpc, PC.inflight] using hin
      refine ⟨by omega, ?_⟩
      have hw := hopen wk hwk (by rw [hpc]; simp)
      cases hec : s.resultClosed
      · rfl
      · have := h.resultClosed_iff.1 hec
        rw [hw] at this
        rcases this with this | this <;> cases this
  · intro sched s hr
    have := GetClientInfoBatch.run_length_le sched hr
    omega
  · intro s hs
    have h := MassMalling.mass_inv_reachable hs
    have hc := h.count
    have hsent := (MassMalling.sent_le h).1
    have hl := MassMalling.sent_length h
    refine ⟨by omega, by omega, ?_, MassMalling.mass_progress h⟩
    intro wk hwk e hpc
    have hin := le_wsum (fun wk => wk.pc.inflight) hwk
    have hin1 : 1 ≤ wsum (fun wk => wk.pc.inflight) s.workers := by
      simpa [hpc, PC.inflight] using hin
    refine ⟨by omega, ?_⟩
    cases hec : s.errorClosed
    · rfl
    · have hfin := h.errorClosed_iff.1 hec
      have hwg := h.closer_wg (by rw [hfin]; simp)
      have := MassMalling.mass_all_done_of_wg h hwg wk hwk
      rw [hpc] at this
      cases this
  · intro sched s hr
    have := MassMalling.mass_run_length_le sched hr
    omega

end MallingWh
